import Mathlib

/-!
# dprpwg: a deterministic pseudo-random password generator

A shallow embedding of `src/dprpwg_lib.c` / `src/dprpwg_lib.h` and theorems about it.

Conventions of the embedding

* A `char` buffer is a `List Byte` (`Byte = Fin 256`).  A C string is read from a
  buffer up to its first NUL byte; the end of the list also ends the string (the
  terminator of an input string is left implicit).
* `unsigned int` is 32 bits wide and `size_t` is 64 bits wide (LP64); every
  operation that C performs in one of these types and that can exceed it carries an
  explicit `% UINT_MOD` or `% SIZE_MOD`.
* `calloc` always succeeds.
* What memory holds after a store that the program never reads back depends on the
  compiler (`Config.dead_stores_kept`).
* `while` is a recursion on a fuel argument; running out of fuel is `none`.
-/

namespace Dprpwg

/-! ## Bytes, C strings and the libc functions used -/

/-- One `char` of memory, as its unsigned value. -/
abbrev Byte := Fin 256

/-- Number of values of an `unsigned int`. -/
def UINT_MOD : Nat := 2 ^ 32

/-- Number of values of a `size_t`. -/
def SIZE_MOD : Nat := 2 ^ 64

/-- The C string held by a buffer: the bytes before the first NUL. -/
def cstr (buf : List Byte) : List Byte := buf.takeWhile (fun b => b != 0)

/-- Libc `strlen`. -/
def strlen (buf : List Byte) : Nat := (cstr buf).length

/-- Libc `memset(buf, 0, n)` on a buffer of which `buf` is the whole. -/
def memset_zero (buf : List Byte) (n : Nat) : List Byte :=
  List.replicate n 0 ++ buf.drop n

/-- Libc `memset(arr, 0, 2 * n)` on an array of `uint16_t` of which `arr` is the
whole. -/
def memset_zero16 (arr : List Nat) (n : Nat) : List Nat :=
  List.replicate n 0 ++ arr.drop n

/-- Libc `strncpy(buf + off, src, n)`: writes exactly `n` bytes at offset `off`, the
string `src` (cut at `n`) followed by NUL padding.  A write past the end of `buf`
shows as a longer list. -/
def strncpy (buf : List Byte) (off : Nat) (src : List Byte) (n : Nat) : List Byte :=
  buf.take off ++ (cstr src ++ List.replicate (n - strlen src) 0).take n ++ buf.drop (off + n)

/-- Two's-complement reading of the low `w` bits of an integer. -/
def wrap_signed (w : Nat) (v : Int) : Int :=
  let m := v % (2 : Int) ^ w
  if m < (2 : Int) ^ (w - 1) then m else m - (2 : Int) ^ w

/-- Libc `isspace` in the C locale. -/
def isspace (b : Byte) : Bool := b.val == 32 || (9 ≤ b.val && b.val ≤ 13)

/-- Libc `isdigit`. -/
def isdigit (b : Byte) : Bool := 48 ≤ b.val && b.val ≤ 57

/-- Value of the leading run of decimal digits of `s`, continuing from `acc`. -/
def parse_digits : List Byte → Nat → Nat
  | [], acc => acc
  | b :: rest, acc => if isdigit b then parse_digits rest (acc * 10 + (b.val - 48)) else acc

/-- Libc `atoi`: skip white space, read an optional sign and the leading decimal
digits; anything else (also an empty or non-numeric string) gives 0.  The value is
returned as an `int`; as in glibc (`(int) strtol (s, NULL, 10)`) a value outside
`long` saturates and the conversion to `int` keeps the low 32 bits. -/
def atoi (s : List Byte) : Int :=
  let t := (cstr s).dropWhile isspace
  let v : Int :=
    match t with
    | [] => 0
    | b :: rest =>
      if b.val = 45 then - (parse_digits rest 0 : Int)
      else if b.val = 43 then (parse_digits rest 0 : Int)
      else (parse_digits t 0 : Int)
  let l : Int :=
    if v < -(2 : Int) ^ 63 then -(2 : Int) ^ 63
    else if (2 : Int) ^ 63 - 1 < v then (2 : Int) ^ 63 - 1 else v
  wrap_signed 32 l

/-! ## `dprpwg_lib.h` -/

/-- Lower case letters, `"azertyuiopqsdfghjklmwxcvbn"`. -/
def OUTPUT_LOW : List Byte :=
  [97, 122, 101, 114, 116, 121, 117, 105, 111, 112, 113, 115, 100, 102, 103, 104, 106,
   107, 108, 109, 119, 120, 99, 118, 98, 110]

/-- Upper case letters, `"FGHJKLMWXCVBNAZERTYUIOPQSD"`. -/
def OUTPUT_UPP : List Byte :=
  [70, 71, 72, 74, 75, 76, 77, 87, 88, 67, 86, 66, 78, 65, 90, 69, 82, 84, 89, 85, 73,
   79, 80, 81, 83, 68]

/-- Digits, `"0123456789"`. -/
def OUTPUT_DIG : List Byte := [48, 49, 50, 51, 52, 53, 54, 55, 56, 57]

/-- Symbols, `"()[]-_{}=+!:/;.,?"`. -/
def OUTPUT_SYM : List Byte :=
  [40, 41, 91, 93, 45, 95, 123, 125, 61, 43, 33, 58, 47, 59, 46, 44, 63]

def OUTPUT_DOMAIN_MAXLENGTH : Nat := 256
def OUTPUT_MIN_LENGTH : Nat := 12
def OUTPUT_MAX_LENGTH : Nat := 256
def FLAG_LOW_AVAIL : Nat := 1 <<< 0
def FLAG_UPP_AVAIL : Nat := 1 <<< 1
def FLAG_DIG_AVAIL : Nat := 1 <<< 2
def FLAG_SYM_AVAIL : Nat := 1 <<< 3
def ITERATION_MAX : Nat := 65536

/-! ## `dprpwg_config.h`

The repository ships only a stub of this header: the nine multipliers are chosen by
whoever builds the program.  They are parameters here, together with the two
properties of the compiler that the generator depends on: the signedness of `char`,
and whether the compiled program performs a store to an object that the program
never reads again (a dead store; a compiler that does not optimise performs it, an
optimising compiler is free to drop it). -/

/-- The nine multipliers of `dprpwg_config.h`, the signedness of plain `char` and
whether dead stores are performed. -/
structure Config where
  PW_MUL : Nat
  PW_SEEK_MUL : Nat
  PW_INV_MUL : Nat
  DOM_MUL : Nat
  DOM_SEEK_MUL : Nat
  DOM_INV_MUL : Nat
  YR_MUL : Nat
  YR_SEEK_MUL : Nat
  YR_INV_MUL : Nat
  char_signed : Bool
  dead_stores_kept : Bool
deriving DecidableEq, Repr

/-! ## `dprpwg_lib.c` -/

/-- The static inline `max` of the library. -/
def max (a b : Nat) : Nat := if a > b then a else b

/-- The static inline `min` of the library. -/
def min (a b : Nat) : Nat := if a < b then a else b

/-- The test `flags & FLAG`. -/
def flag_set (flags flag : Nat) : Bool := flags &&& flag != 0

/-- The symbol domain of `generate_password`: the 256-byte buffer `output_domain`
after the four conditional `strncpy` calls. -/
def build_output_domain (flags : Nat) : List Byte :=
  let buf0 := memset_zero (List.replicate OUTPUT_DOMAIN_MAXLENGTH 0) OUTPUT_DOMAIN_MAXLENGTH
  let seek0 := 0
  let (buf1, seek1) :=
    if flag_set flags FLAG_LOW_AVAIL then
      (strncpy buf0 0 OUTPUT_LOW (max (strlen OUTPUT_LOW) OUTPUT_DOMAIN_MAXLENGTH),
       strlen OUTPUT_LOW)
    else (buf0, seek0)
  let (buf2, seek2) :=
    if flag_set flags FLAG_DIG_AVAIL then
      (strncpy buf1 seek1 OUTPUT_DIG
         (max (strlen OUTPUT_DIG) (OUTPUT_DOMAIN_MAXLENGTH - seek1)),
       seek1 + strlen OUTPUT_DIG)
    else (buf1, seek1)
  let (buf3, seek3) :=
    if flag_set flags FLAG_SYM_AVAIL then
      (strncpy buf2 seek2 OUTPUT_SYM
         (max (strlen OUTPUT_SYM) (OUTPUT_DOMAIN_MAXLENGTH - seek2)),
       seek2 + strlen OUTPUT_SYM)
    else (buf2, seek2)
  let (buf4, _) :=
    if flag_set flags FLAG_UPP_AVAIL then
      (strncpy buf3 seek3 OUTPUT_UPP
         (max (strlen OUTPUT_UPP) (OUTPUT_DOMAIN_MAXLENGTH - seek3)),
       seek3 + strlen OUTPUT_UPP)
    else (buf3, seek3)
  buf4

/-- The function `check_password_domain`: does the string `password` contain a symbol
of the string `domain`?  (The C function returns the `int` TRUE or FALSE.) -/
def check_password_domain (password domain : List Byte) : Bool :=
  (cstr password).any (fun p => (cstr domain).any (fun d => p == d))

/-- The function `check_password`: every requested category is present. -/
def check_password (password : List Byte) (flags : Nat) : Bool :=
  if flag_set flags FLAG_DIG_AVAIL && !check_password_domain password OUTPUT_DIG then false
  else if flag_set flags FLAG_SYM_AVAIL && !check_password_domain password OUTPUT_SYM then false
  else if flag_set flags FLAG_LOW_AVAIL && !check_password_domain password OUTPUT_LOW then false
  else if flag_set flags FLAG_UPP_AVAIL && !check_password_domain password OUTPUT_UPP then false
  else true

/-- The C conversion `(unsigned int) c` of a plain `char` holding the byte `b`: where
`char` is signed, a byte of 128 or more is a negative `char` and converts to
`2^32 - 256 + b`. -/
def char_to_uint (cfg : Config) (b : Byte) : Nat :=
  if cfg.char_signed && decide (128 ≤ b.val) then b.val + (UINT_MOD - 256) else b.val

/-- The length of the generated password: `fixed_size` when it is positive, else the
year rule.  `12 + (unsigned int)(year_value - 2000) / 5` is `unsigned int`
arithmetic. -/
def compute_output_length (fixed_size : Nat) (year : List Byte) : Nat :=
  if fixed_size > 0 then fixed_size
  else
    let year_value : Int := atoi year
    if year_value < 2000 then 12
    else
      max OUTPUT_MIN_LENGTH
        (min OUTPUT_MAX_LENGTH
          ((12 + ((year_value - 2000) % (UINT_MOD : Int)).toNat / 5) % UINT_MOD))

/-- What the loop of `generate_password` reads and never writes. -/
structure Env where
  cfg : Config
  password : List Byte
  domain : List Byte
  year : List Byte
  flags : Nat
  output_domain : List Byte
  output_domain_size : Nat
  password_length : Nat
  domain_length : Nat
  year_length : Nat
  output_length : Nat

/-- The variables the loop of `generate_password` writes. -/
structure LoopState where
  pwd_seek : Nat
  domain_seek : Nat
  year_seek : Nat
  output_seek : Nat
  iteration : Nat
  limit : Nat
  password_hash : List Nat
  new_passwd : List Byte
deriving DecidableEq, Repr

/-- One of the three accumulator updates
`(hash + (unsigned int) s[seek] * MUL + output_seek * seek * SEEK_MUL
   + (unsigned int) s[len - seek - 1] * INV_MUL) % 65536`
with the C types: the two products with a byte and the first sum are
`unsigned int`, the cross term and the two later sums are `size_t`; the result is
stored in a `uint16_t`. -/
def mix_step (cfg : Config) (hash : Nat) (s : List Byte) (len seek output_seek : Nat)
    (mul seek_mul inv_mul : Nat) : Nat :=
  let a := char_to_uint cfg (s.getD seek 0) * mul % UINT_MOD
  let b := output_seek * seek % SIZE_MOD * seek_mul % SIZE_MOD
  let c := char_to_uint cfg (s.getD (len - seek - 1) 0) * inv_mul % UINT_MOD
  (((hash + a) % UINT_MOD + b) % SIZE_MOD + c) % SIZE_MOD % 65536 % 65536

/-- The body of the `while` loop of `generate_password`. -/
def loop_body (e : Env) (st : LoopState) : LoopState :=
  let pwd_seek := if st.pwd_seek ≥ e.password_length then 0 else st.pwd_seek
  let domain_seek := if st.domain_seek ≥ e.domain_length then 0 else st.domain_seek
  let year_seek := if st.year_seek ≥ e.year_length then 0 else st.year_seek
  let output_seek := if st.output_seek ≥ e.output_length then 0 else st.output_seek
  let hash1 :=
    if e.password_length ≠ 0 then
      st.password_hash.set output_seek
        (mix_step e.cfg (st.password_hash.getD output_seek 0) e.password e.password_length
          pwd_seek output_seek e.cfg.PW_MUL e.cfg.PW_SEEK_MUL e.cfg.PW_INV_MUL)
    else st.password_hash
  let hash2 :=
    if e.domain_length ≠ 0 then
      hash1.set output_seek
        (mix_step e.cfg (hash1.getD output_seek 0) e.domain e.domain_length
          domain_seek output_seek e.cfg.DOM_MUL e.cfg.DOM_SEEK_MUL e.cfg.DOM_INV_MUL)
    else hash1
  let hash3 :=
    if e.year_length ≠ 0 then
      hash2.set output_seek
        (mix_step e.cfg (hash2.getD output_seek 0) e.year e.year_length
          year_seek output_seek e.cfg.YR_MUL e.cfg.YR_SEEK_MUL e.cfg.YR_INV_MUL)
    else hash2
  let new_passwd :=
    st.new_passwd.set output_seek
      (e.output_domain.getD (hash3.getD output_seek 0 % e.output_domain_size) 0)
  let iteration := st.iteration + 1
  let limit :=
    if (iteration = st.limit ∧ st.limit < ITERATION_MAX) ∧ check_password new_passwd e.flags = false then
      let raised := (st.limit + e.output_length) % SIZE_MOD
      if raised > ITERATION_MAX then ITERATION_MAX else raised
    else st.limit
  { pwd_seek := pwd_seek + 1
    domain_seek := domain_seek + 1
    year_seek := year_seek + 1
    output_seek := output_seek + 1
    iteration := iteration
    limit := limit
    password_hash := hash3
    new_passwd := new_passwd }

/-- The loop `while (iteration < limit) { ... }`, with fuel. -/
def mix_loop (e : Env) : Nat → LoopState → Option LoopState
  | 0, st => if st.iteration < st.limit then none else some st
  | fuel + 1, st => if st.iteration < st.limit then mix_loop e fuel (loop_body e st) else some st

/-- The environment of the loop, as `generate_password` sets it up before the loop. -/
def make_env (cfg : Config) (password domain year : List Byte) (fixed_size flags : Nat) : Env :=
  let output_domain := build_output_domain flags
  { cfg := cfg
    password := password
    domain := domain
    year := year
    flags := flags
    output_domain := output_domain
    output_domain_size := strlen output_domain
    password_length := strlen password
    domain_length := strlen domain
    year_length := strlen year
    output_length := compute_output_length fixed_size year }

/-- The value of `limit` before the loop (a `size_t` product). -/
def initial_limit (e : Env) : Nat :=
  e.output_domain_size *
    ((e.password_length + e.domain_length + e.year_length + e.output_length + e.flags) % SIZE_MOD)
    % SIZE_MOD

/-- The loop state before the first iteration: the two `calloc`ed arrays, the
cursors and counter at 0. -/
def initial_state (e : Env) : LoopState :=
  { pwd_seek := 0
    domain_seek := 0
    year_seek := 0
    output_seek := 0
    iteration := 0
    limit := initial_limit e
    password_hash := List.replicate e.output_length 0
    new_passwd := List.replicate (e.output_length + 1) 0 }

/-- What `generate_password` leaves behind: the returned buffer `*new_passwd`, what
the memory of the local `output_domain` and of the block `password_hash` holds when
the function returns (each `none` on the path that never initialises it), and the
final value of `iteration`. -/
structure Outcome where
  new_passwd : List Byte
  output_domain : Option (List Byte)
  password_hash : Option (List Nat)
  iteration : Nat
deriving DecidableEq, Repr

/-- The memory of `output_domain` after `memset(output_domain, 0, ...)` at the end of
`generate_password`.  Nothing reads the array after this store and the array dies at
the return, so the store is dead: the memory is zeroed only where dead stores are
performed, and still holds the symbol domain where they are dropped. -/
def final_output_domain (cfg : Config) (output_domain : List Byte) : List Byte :=
  if cfg.dead_stores_kept then memset_zero output_domain OUTPUT_DOMAIN_MAXLENGTH
  else output_domain

/-- The memory of the block `password_hash` after `memset(password_hash, 0, ...)` and
`free(password_hash)`.  The block is only freed after this store, so the store is
dead: the memory is zeroed only where dead stores are performed, and still holds the
accumulators where they are dropped. -/
def final_password_hash (cfg : Config) (password_hash : List Nat) (output_length : Nat) :
    List Nat :=
  if cfg.dead_stores_kept then
    memset_zero16 password_hash (output_length * 2 % SIZE_MOD / 2)
  else password_hash

/-- The function `generate_password`, running its loop with the given fuel. -/
def generate_password_fuel (fuel : Nat) (cfg : Config) (password domain year : List Byte)
    (fixed_size flags : Nat) : Option Outcome :=
  if flags = 0 then
    some { new_passwd := List.replicate 1 0, output_domain := none, password_hash := none,
           iteration := 0 }
  else
    let e := make_env cfg password domain year fixed_size flags
    match mix_loop e fuel (initial_state e) with
    | none => none
    | some st =>
      some { new_passwd := st.new_passwd
             output_domain := some (final_output_domain cfg e.output_domain)
             password_hash := some (final_password_hash cfg st.password_hash e.output_length)
             iteration := st.iteration }

/-- The function `generate_password`.  The fuel given to the loop is the larger of
the initial limit and `ITERATION_MAX`, which the loop never exhausts
(`generate_password_some`, `generate_password_fuel_eq`). -/
def generate_password (cfg : Config) (password domain year : List Byte)
    (fixed_size flags : Nat) : Option Outcome :=
  generate_password_fuel
    (Nat.max (initial_limit (make_env cfg password domain year fixed_size flags)) ITERATION_MAX)
    cfg password domain year fixed_size flags

/-- The variable `alphabet_size` of `get_password_strength` after its four tests. -/
def strength_alphabet_size (flags : Nat) : Nat :=
  let size0 := 0
  let size1 := if flag_set flags FLAG_DIG_AVAIL then size0 + strlen OUTPUT_DIG else size0
  let size2 := if flag_set flags FLAG_SYM_AVAIL then size1 + strlen OUTPUT_SYM else size1
  let size3 := if flag_set flags FLAG_LOW_AVAIL then size2 + strlen OUTPUT_LOW else size2
  let size4 := if flag_set flags FLAG_UPP_AVAIL then size3 + strlen OUTPUT_UPP else size3
  size4

/-- The array `symbols_count_table` of `get_password_strength` after the scan of the
password: entry `(unsigned int) password[i]` is incremented for every `i` below the
length.  (An index of 256 or more, which C does not define, leaves the list as it
is.) -/
def symbols_count_table (cfg : Config) (password : List Byte) : List Nat :=
  (cstr password).foldl
    (fun table b => table.set (char_to_uint cfg b) (table.getD (char_to_uint cfg b) 0 + 1))
    (List.replicate OUTPUT_DOMAIN_MAXLENGTH 0)

/-- The "Shannon entropy" loop of `get_password_strength` over the count table, in
`double` arithmetic. -/
def strength_entropy (table : List Nat) (password_length : Nat) : Float :=
  table.foldl
    (fun entropy count =>
      if count = 0 then entropy
      else
        let probability := Float.ofNat count / Float.ofNat password_length
        entropy - probability * Float.log2 probability)
    0.0

/-- The divisor `max(year / 5 - 388, 12)` of `get_password_strength`: the
subtraction is `unsigned int` arithmetic, the maximum is taken in `size_t`. -/
def strength_divisor (year : Nat) : Nat :=
  max ((year / 5 + (UINT_MOD - 388)) % UINT_MOD) 12

/-- The function `get_password_strength`; a `double` is a `Float`. -/
def get_password_strength (cfg : Config) (password : List Byte) (year flags : Nat) : Float :=
  let alphabet_size := strength_alphabet_size flags
  let password_length := strlen password
  if password_length ≤ 0 then 0.0
  else
    let table := symbols_count_table cfg password
    let entropy := strength_entropy table password_length
    entropy * (Float.ofNat password_length / Float.ofNat (strength_divisor year))
      * Float.log2 (Float.ofNat alphabet_size) / 30.0

/-- A sample configuration, for concrete runs. -/
def sample_config : Config :=
  { PW_MUL := 7919, PW_SEEK_MUL := 104729, PW_INV_MUL := 1299709,
    DOM_MUL := 15485863, DOM_SEEK_MUL := 32452843, DOM_INV_MUL := 49979687,
    YR_MUL := 67867967, YR_SEEK_MUL := 86028121, YR_INV_MUL := 104395301,
    char_signed := true, dead_stores_kept := true }

/-- The secret `"correct horse"`. -/
def sample_secret : List Byte := [99, 111, 114, 114, 101, 99, 116, 32, 104, 111, 114, 115, 101]

/-- The domain label `"example.com"`. -/
def sample_domain : List Byte := [101, 120, 97, 109, 112, 108, 101, 46, 99, 111, 109]

/-- The year label `"2024"`. -/
def sample_year : List Byte := [50, 48, 50, 52]

/-- A buffer that holds the string `"2024"` followed by its terminator and by other
bytes. -/
def sample_year_buffer : List Byte := [50, 48, 50, 52, 0, 55, 55]

/-- The environment of the loop for the sample secret, domain and year, no fixed size
and all four categories. -/
def sample_env : Env := make_env sample_config sample_secret sample_domain sample_year 0 15

/-- The state of that loop after its first iteration. -/
def sample_first_state : LoopState := loop_body sample_env (initial_state sample_env)

/-- The same multipliers as `sample_config`, built where plain `char` is unsigned. -/
def sample_config_unsigned : Config := { sample_config with char_signed := false }

/-- The secret `"é"` in UTF-8: the two bytes 0xC3 0xA9. -/
def sample_secret_utf8 : List Byte := [195, 169]

/-- The year label `"2020"`. -/
def sample_year_2020 : List Byte := [50, 48, 50, 48]

/-! ## `dprpwg-gtk.c`: the display of the strength in `cb_generate`

The callback only compares the score with constants and assigns constants to it, so
a `double` is taken here by its value: not a number, an infinity, or a finite number
(every finite `double` is a rational). -/

/-- The value of a C `double`. -/
inductive DoubleValue where
  | nan
  | neg_inf
  | pos_inf
  | finite (q : ℚ)
deriving DecidableEq

/-- The C comparison `a < b` of two `double`s; it is false when one is not a number. -/
def DoubleValue.lt : DoubleValue → DoubleValue → Bool
  | .finite a, .finite b => decide (a < b)
  | .neg_inf, .finite _ => true
  | .neg_inf, .pos_inf => true
  | .finite _, .pos_inf => true
  | _, _ => false

/-- The eight strings that `cb_generate` can show. -/
inductive StrengthLabel where
  | ridiculously_low
  | very_low
  | low
  | fair
  | good
  | great
  | excellent
  | overkill
deriving DecidableEq, Repr

/-- The string assigned to `password_strength_str`. -/
def StrengthLabel.text : StrengthLabel → String
  | .ridiculously_low => "Strength: ridiculously low"
  | .very_low => "Strength: very low"
  | .low => "Strength: low"
  | .fair => "Strength: fair"
  | .good => "Strength: good"
  | .great => "Strength: great"
  | .excellent => "Strength: excellent"
  | .overkill => "Strength: overkill"

/-- The place of a label in the order of the `if` chain. -/
def StrengthLabel.rank : StrengthLabel → Nat
  | .ridiculously_low => 0
  | .very_low => 1
  | .low => 2
  | .fair => 3
  | .good => 4
  | .great => 5
  | .excellent => 6
  | .overkill => 7

/-- The `if` chain of `cb_generate` that chooses the label of a score. -/
def cb_generate_label (password_strength : DoubleValue) : StrengthLabel :=
  if password_strength.lt (.finite 0.25) then .ridiculously_low
  else if password_strength.lt (.finite 0.375) then .very_low
  else if password_strength.lt (.finite 0.5) then .low
  else if password_strength.lt (.finite 0.625) then .fair
  else if password_strength.lt (.finite 0.75) then .good
  else if password_strength.lt (.finite 0.875) then .great
  else if password_strength.lt (.finite 1) then .excellent
  else .overkill

/-- The value that `cb_generate` passes to `gtk_progress_bar_set_fraction`:
`if (s > 1) s = 1; else if (s < 0) s = 0;`. -/
def cb_generate_fraction (password_strength : DoubleValue) : DoubleValue :=
  if (DoubleValue.finite 1).lt password_strength then .finite 1
  else if password_strength.lt (.finite 0) then .finite 0
  else password_strength

/-- The seven thresholds of the labels: `0.25 + k * 0.125` for `k = 0, ..., 6`. -/
def strength_thresholds : List ℚ := (List.range 7).map (fun k => 1 / 4 + (k : ℚ) / 8)

/-! ## Vocabulary of the specification -/

/-- The four symbol categories. -/
inductive Category where
  | Lower
  | Upper
  | Digit
  | Symbol
deriving DecidableEq, Repr

/-- The flag bit of a category. -/
def Category.flag : Category → Nat
  | .Lower => FLAG_LOW_AVAIL
  | .Upper => FLAG_UPP_AVAIL
  | .Digit => FLAG_DIG_AVAIL
  | .Symbol => FLAG_SYM_AVAIL

/-- The alphabet of a category. -/
def Category.alphabet : Category → List Byte
  | .Lower => OUTPUT_LOW
  | .Upper => OUTPUT_UPP
  | .Digit => OUTPUT_DIG
  | .Symbol => OUTPUT_SYM

/-- The category is requested by `flags`. -/
def requested (flags : Nat) (c : Category) : Prop := flag_set flags c.flag = true

/-- At least one category is requested: the set of categories is not empty. -/
def has_category (flags : Nat) : Prop := ∃ c : Category, requested flags c

/-- The output alphabet in the words of the specification: the alphabets of the
requested categories, concatenated in the order Lower, Digit, Symbol, Upper. -/
def spec_alphabet (flags : Nat) : List Byte :=
  (if flag_set flags FLAG_LOW_AVAIL then OUTPUT_LOW else []) ++
  (if flag_set flags FLAG_DIG_AVAIL then OUTPUT_DIG else []) ++
  (if flag_set flags FLAG_SYM_AVAIL then OUTPUT_SYM else []) ++
  (if flag_set flags FLAG_UPP_AVAIL then OUTPUT_UPP else [])

/-- The accumulator update in the words of the specification, over unbounded
integers: `acc + b[cursor] * forward + position * cursor * cross
+ b[len - 1 - cursor] * reverse`, modulo 65536, the bytes taken as `0..255`. -/
def spec_mix_step (acc : Nat) (s : List Byte) (len cursor position : Nat)
    (forward cross reverse : Nat) : Nat :=
  (acc + (s.getD cursor 0).val * forward + position * cursor * cross
    + (s.getD (len - 1 - cursor) 0).val * reverse) % 65536

/-- The inputs are of a size that a 64-bit machine can hold: the lengths of the
three strings, the requested size and the flags word add up to less than `2^56`.
Under this bound no `size_t` computation of `generate_password` wraps. -/
def InRange (password domain year : List Byte) (fixed_size flags : Nat) : Prop :=
  strlen password + strlen domain + strlen year + fixed_size + flags < 2 ^ 56

instance (password domain year : List Byte) (fixed_size flags : Nat) :
    Decidable (InRange password domain year fixed_size flags) := by
  unfold InRange; infer_instance

instance (flags : Nat) (c : Category) : Decidable (requested flags c) := by
  unfold requested; infer_instance

/-- The environment of a run in which no `size_t` computation wraps and the symbol
domain is not empty. -/
structure EnvOK (e : Env) : Prop where
  length_pos : 0 < e.output_length
  size_eq : e.output_domain_size = strlen e.output_domain
  size_pos : 0 < e.output_domain_size
  no_wrap : e.output_length + ITERATION_MAX ≤ SIZE_MOD

/-- The invariant of the loop of `generate_password` at the loop head. -/
structure Inv (e : Env) (st : LoopState) : Prop where
  len : st.new_passwd.length = e.output_length + 1
  term : st.new_passwd.getD e.output_length 0 = 0
  written : ∀ p, p < e.output_length → p < st.iteration →
    st.new_passwd.getD p 0 ∈ cstr e.output_domain
  seek_le : st.output_seek ≤ e.output_length
  seek_first : st.iteration ≤ e.output_length → st.output_seek = st.iteration
  it_le : st.iteration ≤ st.limit
  limit_ge : initial_limit e ≤ st.limit
  checked : 0 < st.iteration → st.iteration = st.limit → st.limit < ITERATION_MAX →
    check_password st.new_passwd e.flags = true

/-- The states of the loop of `generate_password` at the loop head: the state before
the first iteration, and the state after the body whenever the loop condition
`iteration < limit` held. -/
inductive Reachable (e : Env) : LoopState → Prop where
  | init : Reachable e (initial_state e)
  | step (st : LoopState) : Reachable e st → st.iteration < st.limit →
      Reachable e (loop_body e st)

/-- The cursor an iteration uses: the stored cursor after the reset
`if (seek >= length) seek = 0`. -/
def cursor (seek length : Nat) : Nat := if seek ≥ length then 0 else seek

/-- One of the three guarded accumulator updates of the loop body,
`if (length) password_hash[output_seek] = ...`. -/
def channel_step (cfg : Config) (hash : List Nat) (s : List Byte)
    (len seek output_seek mul seek_mul inv_mul : Nat) : List Nat :=
  if len ≠ 0 then
    hash.set output_seek
      (mix_step cfg (hash.getD output_seek 0) s len seek output_seek mul seek_mul inv_mul)
  else hash

/-- What one input of length `len` adds to the accumulator at iteration `i`, over
the unbounded integers; nothing when the input is empty.  Its cursor is `i mod len`
and the output position is `i mod output_length`; bytes are converted as the code
converts them. -/
def channel_contribution (cfg : Config) (s : List Byte) (len mul seek_mul inv_mul : Nat)
    (output_length i : Nat) : Nat :=
  if len = 0 then 0
  else
    char_to_uint cfg (s.getD (i % len) 0) * mul
      + (i % output_length) * (i % len) * seek_mul
      + char_to_uint cfg (s.getD (len - 1 - i % len) 0) * inv_mul

/-- The secret, domain and year contributions of iteration `i`, added up. -/
def iteration_contribution (e : Env) (i : Nat) : Nat :=
  channel_contribution e.cfg e.password e.password_length e.cfg.PW_MUL e.cfg.PW_SEEK_MUL
      e.cfg.PW_INV_MUL e.output_length i
    + channel_contribution e.cfg e.domain e.domain_length e.cfg.DOM_MUL e.cfg.DOM_SEEK_MUL
      e.cfg.DOM_INV_MUL e.output_length i
    + channel_contribution e.cfg e.year e.year_length e.cfg.YR_MUL e.cfg.YR_SEEK_MUL
      e.cfg.YR_INV_MUL e.output_length i

/-- The sum of the contributions of the iterations `i < n` that work on the output
position `p`, those with `i mod output_length = p`. -/
def accumulated (e : Env) (p n : Nat) : Nat :=
  (((List.range n).filter (fun i => i % e.output_length = p)).map
    (iteration_contribution e)).sum

/-- The body of the plain mixing loop: the loop body without the retry rule, the
limit left as it is. -/
def plain_body (e : Env) (st : LoopState) : LoopState :=
  { loop_body e st with limit := st.limit }

/-- The plain mixing loop run for exactly `n` iterations from the zeroed initial
state. -/
def plain_run (e : Env) (n : Nat) : LoopState :=
  Nat.iterate (plain_body e) n (initial_state e)

/-- What holds of every state of the loop, as long as `output_length` is positive:
the sizes of the two arrays, the cursors as functions of the iteration count, the
accumulators in closed form, and the output buffer as a function of the
accumulators at every position already visited. -/
structure StateInv (e : Env) (st : LoopState) : Prop where
  hash_len : st.password_hash.length = e.output_length
  pass_len : st.new_passwd.length = e.output_length + 1
  pwd_cursor : 0 < e.password_length →
    cursor st.pwd_seek e.password_length = st.iteration % e.password_length
  domain_cursor : 0 < e.domain_length →
    cursor st.domain_seek e.domain_length = st.iteration % e.domain_length
  year_cursor : 0 < e.year_length →
    cursor st.year_seek e.year_length = st.iteration % e.year_length
  output_cursor : cursor st.output_seek e.output_length = st.iteration % e.output_length
  closed : ∀ p, p < e.output_length →
    st.password_hash.getD p 0 = accumulated e p st.iteration % 65536
  follows : ∀ p, p < e.output_length → p < st.iteration →
    st.new_passwd.getD p 0 =
      e.output_domain.getD (st.password_hash.getD p 0 % e.output_domain_size) 0

/-- The `strncpy` calls that `generate_password` makes for `flags`, in the order of
the code: the offset into `output_domain`, the source string and the count. -/
def strncpy_calls (flags : Nat) : List (Nat × List Byte × Nat) :=
  let seek0 := 0
  let (calls1, seek1) :=
    if flag_set flags FLAG_LOW_AVAIL then
      ([(0, OUTPUT_LOW, max (strlen OUTPUT_LOW) OUTPUT_DOMAIN_MAXLENGTH)], strlen OUTPUT_LOW)
    else ([], seek0)
  let (calls2, seek2) :=
    if flag_set flags FLAG_DIG_AVAIL then
      (calls1 ++ [(seek1, OUTPUT_DIG,
          max (strlen OUTPUT_DIG) (OUTPUT_DOMAIN_MAXLENGTH - seek1))],
       seek1 + strlen OUTPUT_DIG)
    else (calls1, seek1)
  let (calls3, seek3) :=
    if flag_set flags FLAG_SYM_AVAIL then
      (calls2 ++ [(seek2, OUTPUT_SYM,
          max (strlen OUTPUT_SYM) (OUTPUT_DOMAIN_MAXLENGTH - seek2))],
       seek2 + strlen OUTPUT_SYM)
    else (calls2, seek2)
  let (calls4, _) :=
    if flag_set flags FLAG_UPP_AVAIL then
      (calls3 ++ [(seek3, OUTPUT_UPP,
          max (strlen OUTPUT_UPP) (OUTPUT_DOMAIN_MAXLENGTH - seek3))],
       seek3 + strlen OUTPUT_UPP)
    else (calls3, seek3)
  calls4

/-- The invariant that ties the loop with its retry rule to the plain mixing loop:
the state is the state of the plain loop after as many iterations, but for the
limit; the limit is the initial one if that is `ITERATION_MAX` or more, and else a
value `min (initial limit + k * output_length) ITERATION_MAX` of the retry sequence,
all earlier values of which were below `ITERATION_MAX` and failed the check; and
when the iteration count has reached the limit, the check passes or the limit is
`ITERATION_MAX`. -/
structure RetryInv (e : Env) (st : LoopState) : Prop where
  agree : st = { plain_run e st.iteration with limit := st.limit }
  it_le : st.iteration ≤ st.limit
  high : ITERATION_MAX ≤ initial_limit e → st.limit = initial_limit e
  low : initial_limit e < ITERATION_MAX →
    ∃ k, st.limit = Nat.min (initial_limit e + k * e.output_length) ITERATION_MAX ∧
      ∀ j, j < k → initial_limit e + j * e.output_length < ITERATION_MAX ∧
        check_password (plain_run e (initial_limit e + j * e.output_length)).new_passwd e.flags
          = false
  stop : st.iteration = st.limit → initial_limit e < ITERATION_MAX →
    check_password st.new_passwd e.flags = true ∨ st.limit = ITERATION_MAX

/-! ## Theorems -/

/-! ### The literals and C strings -/

theorem OUTPUT_LOW_text :
    OUTPUT_LOW = "azertyuiopqsdfghjklmwxcvbn".toList.map (fun c => Fin.ofNat c.toNat) := by
  decide

theorem OUTPUT_UPP_text :
    OUTPUT_UPP = "FGHJKLMWXCVBNAZERTYUIOPQSD".toList.map (fun c => Fin.ofNat c.toNat) := by
  decide

theorem OUTPUT_DIG_text :
    OUTPUT_DIG = "0123456789".toList.map (fun c => Fin.ofNat c.toNat) := by
  decide

theorem OUTPUT_SYM_text :
    OUTPUT_SYM = "()[]-_\x7b\x7d=+!:/;.,?".toList.map (fun c => Fin.ofNat c.toNat) := by
  decide

theorem cstr_cons_ne (b : Byte) (l : List Byte) (h : b ≠ 0) : cstr (b :: l) = b :: cstr l := by
  have hb : (b != 0) = true := by simpa using h
  simp [cstr, List.takeWhile_cons, hb]

theorem cstr_cons_zero (l : List Byte) : cstr ((0 : Byte) :: l) = [] := by
  simp [cstr, List.takeWhile]

theorem cstr_nil : cstr [] = [] := rfl

/-- Every byte of a C string is non-zero. -/
theorem ne_zero_of_mem_cstr (buf : List Byte) (b : Byte) (h : b ∈ cstr buf) : b ≠ 0 := by
  have := List.mem_takeWhile_imp h
  simpa using this

/-- A byte read below `strlen` is a byte of the string. -/
theorem getD_mem_cstr (buf : List Byte) (i : Nat) (h : i < strlen buf) :
    buf.getD i 0 ∈ cstr buf := by
  induction buf generalizing i with
  | nil => simp [strlen, cstr] at h
  | cons b l ih =>
    by_cases hb : b = 0
    · subst hb; simp [strlen, cstr_cons_zero] at h
    · rw [cstr_cons_ne b l hb]
      cases i with
      | zero => simp
      | succ j =>
        have hj : j < strlen l := by
          simp only [strlen, cstr_cons_ne b l hb, List.length_cons] at h
          simp only [strlen]; omega
        simpa using Or.inr (ih j hj)

/-- The string read from its own string is the string. -/
theorem cstr_cstr (buf : List Byte) : cstr (cstr buf) = cstr buf := by
  induction buf with
  | nil => rfl
  | cons b l ih =>
    by_cases hb : b = 0
    · subst hb; simp [cstr_cons_zero, cstr_nil]
    · rw [cstr_cons_ne b l hb, cstr_cons_ne b _ hb, ih]

/-- Below `strlen`, reading the buffer and reading the string agree. -/
theorem getD_cstr (buf : List Byte) (i : Nat) (h : i < strlen buf) :
    (cstr buf).getD i 0 = buf.getD i 0 := by
  induction buf generalizing i with
  | nil => rfl
  | cons b l ih =>
    by_cases hb : b = 0
    · subst hb; simp [strlen, cstr_cons_zero] at h
    · rw [cstr_cons_ne b l hb]
      cases i with
      | zero => simp
      | succ j =>
        have hj : j < strlen l := by
          simp only [strlen, cstr_cons_ne b l hb, List.length_cons] at h
          simp only [strlen]; omega
        simpa using ih j hj

/-- A buffer whose first `n` bytes are non-zero and whose byte `n` is NUL holds a
string of length `n`. -/
theorem strlen_eq_of_terminated (buf : List Byte) (n : Nat)
    (hnz : ∀ i, i < n → buf.getD i 0 ≠ 0) (hz : buf.getD n 0 = 0) : strlen buf = n := by
  induction buf generalizing n with
  | nil =>
    cases n with
    | zero => rfl
    | succ m => exact absurd (by simp) (hnz 0 (Nat.succ_pos m))
  | cons b l ih =>
    cases n with
    | zero =>
      have hb : b = 0 := by simpa using hz
      subst hb; simp [strlen, cstr_cons_zero]
    | succ m =>
      have hb : b ≠ 0 := by simpa using hnz 0 (Nat.succ_pos m)
      have := ih m (fun i hi => by simpa using hnz (i + 1) (by omega)) (by simpa using hz)
      simp only [strlen, cstr_cons_ne b l hb, List.length_cons]
      simp only [strlen] at this; omega

/-- The bytes of the string held by such a buffer are its first `n` bytes. -/
theorem mem_cstr_of_terminated (buf : List Byte) (n : Nat)
    (hnz : ∀ i, i < n → buf.getD i 0 ≠ 0) (hz : buf.getD n 0 = 0) (b : Byte)
    (hb : b ∈ cstr buf) : ∃ i, i < n ∧ buf.getD i 0 = b := by
  have hlen := strlen_eq_of_terminated buf n hnz hz
  obtain ⟨k, hk, rfl⟩ := List.getElem_of_mem hb
  refine ⟨k, by simpa [strlen] using hlen ▸ hk, ?_⟩
  rw [← getD_cstr buf k (by simpa [strlen] using hk)]
  exact List.getD_eq_getElem _ _ hk

/-! ### The symbol domain -/

set_option maxRecDepth 100000 in
/-- The symbol domain as a function of the four tests `flags & FLAG_..._AVAIL`. -/
theorem build_output_domain_bits (low dig sym upp : Bool) :
    ∀ flags, flag_set flags FLAG_LOW_AVAIL = low → flag_set flags FLAG_DIG_AVAIL = dig →
      flag_set flags FLAG_SYM_AVAIL = sym → flag_set flags FLAG_UPP_AVAIL = upp →
      (build_output_domain flags).length = OUTPUT_DOMAIN_MAXLENGTH ∧
      cstr (build_output_domain flags) = spec_alphabet flags ∧
      strlen (build_output_domain flags) =
        (if low then 26 else 0) + (if dig then 10 else 0) + (if sym then 17 else 0)
          + (if upp then 26 else 0) := by
  intro flags h1 h2 h3 h4
  simp only [build_output_domain, spec_alphabet, strlen, h1, h2, h3, h4]
  cases low <;> cases dig <;> cases sym <;> cases upp <;> exact ⟨rfl, rfl, rfl⟩

set_option maxRecDepth 100000 in
/-- The four category alphabets are pairwise disjoint: a symbol of a category is in a
concatenation of category alphabets exactly when that of its category is taken. -/
theorem category_symbol_mem (low dig sym upp : Bool) (c : Category) :
    ∀ b ∈ c.alphabet,
      (b ∈ (if low then OUTPUT_LOW else []) ++ (if dig then OUTPUT_DIG else []) ++
            (if sym then OUTPUT_SYM else []) ++ (if upp then OUTPUT_UPP else []) ↔
        (match c with
          | .Lower => low | .Upper => upp | .Digit => dig | .Symbol => sym) = true) := by
  cases low <;> cases dig <;> cases sym <;> cases upp <;> cases c <;> decide

theorem cstr_build_output_domain (flags : Nat) :
    cstr (build_output_domain flags) = spec_alphabet flags :=
  (build_output_domain_bits _ _ _ _ flags rfl rfl rfl rfl).2.1

theorem strlen_build_output_domain_le (flags : Nat) :
    strlen (build_output_domain flags) ≤ 79 := by
  rw [(build_output_domain_bits _ _ _ _ flags rfl rfl rfl rfl).2.2]
  split <;> split <;> split <;> split <;> omega

theorem strlen_build_output_domain_pos (flags : Nat) (h : has_category flags) :
    0 < strlen (build_output_domain flags) := by
  rw [(build_output_domain_bits _ _ _ _ flags rfl rfl rfl rfl).2.2]
  obtain ⟨c, hc⟩ := h
  cases c <;> simp only [requested, Category.flag] at hc <;> simp [hc]

/-! ### The length policy -/

theorem wrap_signed_32_range (v : Int) :
    -(2 : Int) ^ 31 ≤ wrap_signed 32 v ∧ wrap_signed 32 v < (2 : Int) ^ 31 := by
  unfold wrap_signed
  have h1 : (0 : Int) ≤ v % (2 : Int) ^ 32 := Int.emod_nonneg _ (by norm_num)
  have h2 : v % (2 : Int) ^ 32 < (2 : Int) ^ 32 := Int.emod_lt_of_pos _ (by norm_num)
  norm_num at h1 h2 ⊢
  split <;> constructor <;> omega

/-- The value of `atoi` is an `int`. -/
theorem atoi_range (s : List Byte) : -(2 : Int) ^ 31 ≤ atoi s ∧ atoi s < (2 : Int) ^ 31 := by
  unfold atoi
  exact wrap_signed_32_range _

/-- The year rule of `generate_password` over the integers. -/
theorem compute_output_length_year (year : List Byte) :
    compute_output_length 0 year =
      if atoi year < 2000 then 12
      else Nat.max 12 (Nat.min 256 (12 + ((atoi year - 2000) / 5).toNat)) := by
  obtain ⟨hlo, hhi⟩ := atoi_range year
  unfold compute_output_length
  simp only [gt_iff_lt, Nat.lt_irrefl, if_false]
  by_cases hy : atoi year < 2000
  · simp [hy]
  · simp only [hy, if_false]
    norm_num at hlo hhi
    have hmod : (atoi year - 2000) % ((UINT_MOD : Nat) : Int) = atoi year - 2000 := by
      apply Int.emod_eq_of_lt
      · omega
      · simp only [UINT_MOD]; norm_num; omega
    rw [hmod]
    have hq : ((atoi year - 2000).toNat / 5) = ((atoi year - 2000) / 5).toNat := by omega
    have hsmall : 12 + (atoi year - 2000).toNat / 5 < UINT_MOD := by
      simp only [UINT_MOD]; omega
    rw [Nat.mod_eq_of_lt hsmall, hq]
    simp only [max, min, OUTPUT_MIN_LENGTH, OUTPUT_MAX_LENGTH, Nat.max_def, Nat.min_def]
    split <;> split <;> split <;> split <;> omega

theorem compute_output_length_fixed (fixed_size : Nat) (year : List Byte) (h : 0 < fixed_size) :
    compute_output_length fixed_size year = fixed_size := by
  simp [compute_output_length, h]

theorem compute_output_length_year_bounds (year : List Byte) :
    12 ≤ compute_output_length 0 year ∧ compute_output_length 0 year ≤ 256 := by
  rw [compute_output_length_year]
  split
  · omega
  · simp only [Nat.max_def, Nat.min_def]
    split <;> split <;> omega

theorem compute_output_length_pos (fixed_size : Nat) (year : List Byte) :
    0 < compute_output_length fixed_size year := by
  rcases Nat.eq_zero_or_pos fixed_size with h | h
  · subst h; have := (compute_output_length_year_bounds year).1; omega
  · rw [compute_output_length_fixed _ _ h]; exact h

theorem compute_output_length_le (fixed_size : Nat) (year : List Byte) :
    compute_output_length fixed_size year ≤ fixed_size + 256 := by
  rcases Nat.eq_zero_or_pos fixed_size with h | h
  · subst h; have := (compute_output_length_year_bounds year).2; omega
  · rw [compute_output_length_fixed _ _ h]; omega

/-! ### The loop -/

/-- The output position an iteration works on. -/
theorem loop_body_new_passwd (e : Env) (st : LoopState) :
    ∃ k, (loop_body e st).new_passwd =
      st.new_passwd.set (if st.output_seek ≥ e.output_length then 0 else st.output_seek)
        (e.output_domain.getD (k % e.output_domain_size) 0) :=
  ⟨_, rfl⟩

theorem loop_body_iteration (e : Env) (st : LoopState) :
    (loop_body e st).iteration = st.iteration + 1 := rfl

theorem loop_body_output_seek (e : Env) (st : LoopState) :
    (loop_body e st).output_seek =
      (if st.output_seek ≥ e.output_length then 0 else st.output_seek) + 1 := rfl

theorem loop_body_limit (e : Env) (st : LoopState) :
    (loop_body e st).limit =
      if (st.iteration + 1 = st.limit ∧ st.limit < ITERATION_MAX) ∧
          check_password (loop_body e st).new_passwd e.flags = false then
        (if (st.limit + e.output_length) % SIZE_MOD > ITERATION_MAX then ITERATION_MAX
         else (st.limit + e.output_length) % SIZE_MOD)
      else st.limit := rfl

/-- The limit after an iteration is the old one or at most `ITERATION_MAX`. -/
theorem loop_body_limit_le (e : Env) (st : LoopState) :
    (loop_body e st).limit = st.limit ∨ (loop_body e st).limit ≤ ITERATION_MAX := by
  rw [loop_body_limit]
  split
  · right; split <;> omega
  · left; rfl

/-- The rule of the `while` loop: a property kept by the body holds on exit, where
the loop condition is false. -/
theorem mix_loop_invariant (e : Env) (P : LoopState → Prop)
    (hstep : ∀ st, P st → st.iteration < st.limit → P (loop_body e st)) :
    ∀ (fuel : Nat) (st r : LoopState), P st → mix_loop e fuel st = some r →
      P r ∧ ¬ r.iteration < r.limit := by
  intro fuel
  induction fuel with
  | zero =>
    intro st r hP h
    simp only [mix_loop] at h
    split at h
    · exact absurd h (by simp)
    · cases h; exact ⟨hP, by assumption⟩
  | succ n ih =>
    intro st r hP h
    simp only [mix_loop] at h
    split at h
    · exact ih _ _ (hstep st hP (by assumption)) h
    · cases h; exact ⟨hP, by assumption⟩

/-- The loop ends: fuel `B - iteration` is enough, for any bound `B` of the limit that
is at least `ITERATION_MAX`. -/
theorem mix_loop_terminates (e : Env) (B : Nat) (hB : ITERATION_MAX ≤ B) :
    ∀ (fuel : Nat) (st : LoopState), st.limit ≤ B → B - st.iteration ≤ fuel →
      ∃ r, mix_loop e fuel st = some r := by
  intro fuel
  induction fuel with
  | zero =>
    intro st hl hf
    refine ⟨st, ?_⟩
    simp only [mix_loop]
    rw [if_neg (by omega)]
  | succ n ih =>
    intro st hl hf
    simp only [mix_loop]
    split
    · apply ih
      · rcases loop_body_limit_le e st with h | h <;> omega
      · rw [loop_body_iteration]; omega
    · exact ⟨st, rfl⟩

/-- More fuel does not change the result of the loop. -/
theorem mix_loop_fuel_mono (e : Env) :
    ∀ (fuel fuel2 : Nat) (st r : LoopState), fuel ≤ fuel2 → mix_loop e fuel st = some r →
      mix_loop e fuel2 st = some r := by
  intro fuel
  induction fuel with
  | zero =>
    intro fuel2 st r _ h
    simp only [mix_loop] at h
    split at h
    · exact absurd h (by simp)
    · cases fuel2 <;> simp only [mix_loop] <;> rw [if_neg (by assumption)] <;> exact h
  | succ n ih =>
    intro fuel2 st r hle h
    cases fuel2 with
    | zero => omega
    | succ m =>
      simp only [mix_loop] at h ⊢
      split
      · rw [if_pos (by assumption)] at h
        exact ih m _ _ (by omega) h
      · rw [if_neg (by assumption)] at h
        exact h

/-- The loop invariant holds before the first iteration. -/
theorem inv_initial (e : Env) : Inv e (initial_state e) where
  len := by simp [initial_state]
  term := by simp [initial_state, List.getD_eq_getElem?_getD, List.getElem?_replicate]
  written := by intro p _ h; simp [initial_state] at h
  seek_le := by simp [initial_state]
  seek_first := by intro _; rfl
  it_le := by simp [initial_state]
  limit_ge := by simp [initial_state]
  checked := by intro h; simp [initial_state] at h

/-- The body of the loop keeps the invariant. -/
theorem inv_step (e : Env) (he : EnvOK e) (st : LoopState) (hI : Inv e st)
    (hlt : st.iteration < st.limit) : Inv e (loop_body e st) := by
  obtain ⟨k, hk⟩ := loop_body_new_passwd e st
  have hpos := he.length_pos
  have hseek : (if st.output_seek ≥ e.output_length then 0 else st.output_seek) < e.output_length := by
    split <;> omega
  have hidx : k % e.output_domain_size < strlen e.output_domain := by
    rw [← he.size_eq]; exact Nat.mod_lt _ he.size_pos
  have hsym := getD_mem_cstr e.output_domain _ hidx
  have hlim : st.limit ≤ (loop_body e st).limit ∧
      ((loop_body e st).limit = st.limit ∨ st.iteration + 1 < (loop_body e st).limit) := by
    rw [loop_body_limit]
    have hw := he.no_wrap
    simp only [ITERATION_MAX] at hw ⊢
    split
    · rename_i hc
      have hm : (st.limit + e.output_length) % SIZE_MOD = st.limit + e.output_length :=
        Nat.mod_eq_of_lt (by omega)
      rw [hm]
      split <;> constructor <;> omega
    · exact ⟨Nat.le_refl _, Or.inl rfl⟩
  refine ⟨?_, ?_, ?_, ?_, ?_, ?_, ?_, ?_⟩
  · rw [hk, List.length_set]; exact hI.len
  · rw [hk, List.getD_eq_getElem?_getD, List.getElem?_set_ne (by omega),
      ← List.getD_eq_getElem?_getD]
    exact hI.term
  · intro p hp hpi
    rw [hk, List.getD_eq_getElem?_getD]
    by_cases hps : (if st.output_seek ≥ e.output_length then 0 else st.output_seek) = p
    · rw [hps, List.getElem?_set_self (by rw [hI.len]; omega)]
      exact hsym
    · rw [List.getElem?_set_ne hps, ← List.getD_eq_getElem?_getD]
      apply hI.written p hp
      rw [loop_body_iteration] at hpi
      rcases Nat.lt_or_ge p st.iteration with h | h
      · exact h
      · exfalso
        have h1 := hI.seek_first (by omega)
        rw [h1] at hps
        rw [if_neg (by omega)] at hps
        omega
  · rw [loop_body_output_seek]; omega
  · intro h
    rw [loop_body_iteration] at h ⊢
    rw [loop_body_output_seek, hI.seek_first (by omega), if_neg (by omega)]
  · rw [loop_body_iteration]; rcases hlim.2 with h | h <;> omega
  · exact Nat.le_trans hI.limit_ge hlim.1
  · intro _ heq hmax
    rw [loop_body_iteration] at heq
    rcases hlim.2 with h | h
    · rw [h] at heq hmax
      have hl := loop_body_limit e st
      rw [h] at hl
      by_contra hc
      rw [if_pos ⟨⟨heq, hmax⟩, by simpa using hc⟩] at hl
      have hw := he.no_wrap
      simp only [ITERATION_MAX] at hw hmax hl
      have hm : (st.limit + e.output_length) % SIZE_MOD = st.limit + e.output_length :=
        Nat.mod_eq_of_lt (by simp only [SIZE_MOD] at hw ⊢; omega)
      rw [hm] at hl
      split at hl <;> omega
    · omega

/-! ### Runs of `generate_password` -/

theorem flags_ne_zero_of_has_category (flags : Nat) (h : has_category flags) : flags ≠ 0 := by
  obtain ⟨c, hc⟩ := h
  rintro rfl
  cases c <;> simp [requested, flag_set] at hc

/-- In range, the environment of a run with a category wraps nowhere. -/
theorem envOK_make_env (cfg : Config) (password domain year : List Byte)
    (fixed_size flags : Nat) (hc : has_category flags)
    (hfit : InRange password domain year fixed_size flags) :
    EnvOK (make_env cfg password domain year fixed_size flags) where
  length_pos := compute_output_length_pos fixed_size year
  size_eq := rfl
  size_pos := strlen_build_output_domain_pos flags hc
  no_wrap := by
    have h := compute_output_length_le fixed_size year
    simp only [InRange] at hfit
    simp only [make_env, ITERATION_MAX, SIZE_MOD]
    omega

/-- In range, the initial limit is the exact product. -/
theorem initial_limit_exact (cfg : Config) (password domain year : List Byte)
    (fixed_size flags : Nat) (hfit : InRange password domain year fixed_size flags) :
    initial_limit (make_env cfg password domain year fixed_size flags) =
      strlen (build_output_domain flags) *
        (strlen password + strlen domain + strlen year
          + compute_output_length fixed_size year + flags) := by
  have h := compute_output_length_le fixed_size year
  have ha := strlen_build_output_domain_le flags
  simp only [InRange] at hfit
  simp only [initial_limit, make_env, SIZE_MOD]
  have hsum : strlen password + strlen domain + strlen year
      + compute_output_length fixed_size year + flags < 2 ^ 56 + 256 := by omega
  have hinner : (strlen password + strlen domain + strlen year
      + compute_output_length fixed_size year + flags) % 2 ^ 64 =
      strlen password + strlen domain + strlen year
      + compute_output_length fixed_size year + flags := Nat.mod_eq_of_lt (by omega)
  rw [hinner]
  apply Nat.mod_eq_of_lt
  calc strlen (build_output_domain flags) * _
      ≤ 79 * (strlen password + strlen domain + strlen year
          + compute_output_length fixed_size year + flags) := Nat.mul_le_mul_right _ ha
    _ < 2 ^ 64 := by omega

/-- In range and with a category, the initial limit exceeds the output length. -/
theorem output_length_lt_initial_limit (cfg : Config) (password domain year : List Byte)
    (fixed_size flags : Nat) (hc : has_category flags)
    (hfit : InRange password domain year fixed_size flags) :
    compute_output_length fixed_size year <
      initial_limit (make_env cfg password domain year fixed_size flags) := by
  rw [initial_limit_exact cfg password domain year fixed_size flags hfit]
  have hp := strlen_build_output_domain_pos flags hc
  have hf := flags_ne_zero_of_has_category flags hc
  calc compute_output_length fixed_size year
      < 1 * (strlen password + strlen domain + strlen year
          + compute_output_length fixed_size year + flags) := by omega
    _ ≤ _ := Nat.mul_le_mul_right _ hp

/-- The loop of every run returns, within `max (initial limit) ITERATION_MAX`
iterations; any fuel from that bound on gives the same final state. -/
theorem run_returns (e : Env) :
    ∃ r, mix_loop e (Nat.max (initial_limit e) ITERATION_MAX) (initial_state e) = some r ∧
      r.iteration ≤ Nat.max (initial_limit e) ITERATION_MAX ∧
      ∀ fuel, Nat.max (initial_limit e) ITERATION_MAX ≤ fuel →
        mix_loop e fuel (initial_state e) = some r := by
  obtain ⟨r, hr⟩ := mix_loop_terminates e (Nat.max (initial_limit e) ITERATION_MAX)
    (Nat.le_max_right _ _) (Nat.max (initial_limit e) ITERATION_MAX) (initial_state e)
    (Nat.le_max_left _ _) (Nat.sub_le _ _)
  refine ⟨r, hr, ?_, fun fuel hf => mix_loop_fuel_mono e _ fuel _ _ hf hr⟩
  have hB : initial_limit e ≤ Nat.max (initial_limit e) ITERATION_MAX := Nat.le_max_left _ _
  have hM : ITERATION_MAX ≤ Nat.max (initial_limit e) ITERATION_MAX := Nat.le_max_right _ _
  have := mix_loop_invariant e
    (fun st => st.iteration ≤ Nat.max (initial_limit e) ITERATION_MAX ∧
      st.limit ≤ Nat.max (initial_limit e) ITERATION_MAX)
    (by
      intro st ⟨_, h2⟩ hlt
      refine ⟨by rw [loop_body_iteration]; omega, ?_⟩
      rcases loop_body_limit_le e st with h | h <;> omega)
    _ _ r ⟨Nat.zero_le _, hB⟩ hr
  exact this.1.1

/-- Without wrapping, the loop returns in a state that satisfies the invariant and in
which `iteration` has reached `limit`. -/
theorem run_inv (e : Env) (he : EnvOK e) :
    ∃ r, mix_loop e (Nat.max (initial_limit e) ITERATION_MAX) (initial_state e) = some r ∧
      Inv e r ∧ r.iteration = r.limit := by
  obtain ⟨r, hr, _, _⟩ := run_returns e
  have := mix_loop_invariant e (Inv e) (inv_step e he) _ _ r (inv_initial e) hr
  exact ⟨r, hr, this.1, by have := this.1.it_le; omega⟩

/-- The outcome of `generate_password` in terms of the final loop state. -/
theorem generate_password_of_run (cfg : Config) (password domain year : List Byte)
    (fixed_size flags : Nat) (hf : flags ≠ 0) (r : LoopState)
    (hr : mix_loop (make_env cfg password domain year fixed_size flags)
      (Nat.max (initial_limit (make_env cfg password domain year fixed_size flags))
        ITERATION_MAX)
      (initial_state (make_env cfg password domain year fixed_size flags)) = some r) :
    ∃ out, generate_password cfg password domain year fixed_size flags = some out ∧
      out.new_passwd = r.new_passwd ∧ out.iteration = r.iteration := by
  simp only [generate_password, generate_password_fuel, if_neg hf, hr]
  exact ⟨_, rfl, rfl, rfl⟩

/-- The buffer returned by a run in range with a category: `output_length` symbols
of the symbol domain and the terminator; the loop ran up to a limit that is at least
the initial one, and stopped below `ITERATION_MAX` only on a checked password. -/
theorem generate_password_buffer (cfg : Config) (password domain year : List Byte)
    (fixed_size flags : Nat) (hc : has_category flags)
    (hfit : InRange password domain year fixed_size flags) :
    ∃ out, generate_password cfg password domain year fixed_size flags = some out ∧
      (∀ i, i < compute_output_length fixed_size year →
        out.new_passwd.getD i 0 ∈ spec_alphabet flags) ∧
      out.new_passwd.getD (compute_output_length fixed_size year) 0 = 0 ∧
      out.new_passwd.length = compute_output_length fixed_size year + 1 ∧
      initial_limit (make_env cfg password domain year fixed_size flags) ≤ out.iteration ∧
      (out.iteration < ITERATION_MAX → check_password out.new_passwd flags = true) := by
  have he := envOK_make_env cfg password domain year fixed_size flags hc hfit
  obtain ⟨r, hr, hI, hex⟩ := run_inv _ he
  obtain ⟨out, ho, hp, hi⟩ := generate_password_of_run cfg password domain year fixed_size
    flags (flags_ne_zero_of_has_category flags hc) r hr
  have hlt := output_length_lt_initial_limit cfg password domain year fixed_size flags hc hfit
  have hge := hI.limit_ge
  refine ⟨out, ho, ?_, ?_, ?_, ?_, ?_⟩
  · intro i hi2
    rw [hp, ← cstr_build_output_domain flags]
    exact hI.written i hi2 (by show i < r.iteration; omega)
  · rw [hp]; exact hI.term
  · rw [hp]; exact hI.len
  · rw [hi, hex]; exact hge
  · intro hlt2
    rw [hp]
    rw [hi] at hlt2
    exact hI.checked (by omega) hex (by omega)

/-! ### The category checker -/

theorem check_password_domain_iff (password domain : List Byte) :
    check_password_domain password domain = true ↔
      ∃ b, b ∈ cstr password ∧ b ∈ cstr domain := by
  simp only [check_password_domain, List.any_eq_true, beq_iff_eq]
  constructor
  · rintro ⟨p, hp, d, hd, rfl⟩; exact ⟨p, hp, hd⟩
  · rintro ⟨b, hp, hd⟩; exact ⟨b, hp, b, hd, rfl⟩

theorem cstr_alphabet (c : Category) : cstr c.alphabet = c.alphabet := by
  cases c <;> rfl

theorem check_password_eq_true_iff (password : List Byte) (flags : Nat) :
    check_password password flags = true ↔
      ∀ c : Category, requested flags c → ∃ b, b ∈ cstr password ∧ b ∈ c.alphabet := by
  have hD := check_password_domain_iff password OUTPUT_DIG
  have hS := check_password_domain_iff password OUTPUT_SYM
  have hL := check_password_domain_iff password OUTPUT_LOW
  have hU := check_password_domain_iff password OUTPUT_UPP
  rw [show cstr OUTPUT_DIG = OUTPUT_DIG from rfl] at hD
  rw [show cstr OUTPUT_SYM = OUTPUT_SYM from rfl] at hS
  rw [show cstr OUTPUT_LOW = OUTPUT_LOW from rfl] at hL
  rw [show cstr OUTPUT_UPP = OUTPUT_UPP from rfl] at hU
  constructor
  · intro h c hc
    simp only [check_password] at h
    cases c <;> simp only [requested, Category.flag] at hc <;>
      simp only [Category.alphabet] <;> simp only [hc] at h
    · rw [← hL]; by_contra hn; simp [hn] at h
    · rw [← hU]; by_contra hn; simp [hn] at h
    · rw [← hD]; by_contra hn; simp [hn] at h
    · rw [← hS]; by_contra hn; simp [hn] at h
  · intro h
    have hl := h Category.Lower
    have hu := h Category.Upper
    have hd := h Category.Digit
    have hs := h Category.Symbol
    simp only [requested, Category.flag, Category.alphabet] at hl hu hd hs
    rw [← hL] at hl; rw [← hU] at hu; rw [← hD] at hd; rw [← hS] at hs
    simp only [check_password]
    cases h1 : flag_set flags FLAG_DIG_AVAIL <;> cases h2 : flag_set flags FLAG_SYM_AVAIL <;>
      cases h3 : flag_set flags FLAG_LOW_AVAIL <;> cases h4 : flag_set flags FLAG_UPP_AVAIL <;>
      simp_all

/-! ### Only the strings are read -/

theorem strlen_cstr (buf : List Byte) : strlen (cstr buf) = strlen buf := by
  simp only [strlen, cstr_cstr]

theorem atoi_cstr (buf : List Byte) : atoi (cstr buf) = atoi buf := by
  simp only [atoi, cstr_cstr]

theorem compute_output_length_cstr (fixed_size : Nat) (year : List Byte) :
    compute_output_length fixed_size (cstr year) = compute_output_length fixed_size year := by
  simp only [compute_output_length, atoi_cstr]

/-- An accumulator update reads the string at two places below its length only. -/
theorem mix_step_cstr (cfg : Config) (hash : Nat) (s : List Byte) (seek output_seek : Nat)
    (mul seek_mul inv_mul : Nat) (hseek : seek < strlen s) :
    mix_step cfg hash (cstr s) (strlen s) seek output_seek mul seek_mul inv_mul =
      mix_step cfg hash s (strlen s) seek output_seek mul seek_mul inv_mul := by
  simp only [mix_step]
  rw [getD_cstr s seek hseek, getD_cstr s (strlen s - seek - 1) (by omega)]

/-- The body of the loop does the same on the buffers and on the strings they hold. -/
theorem loop_body_cstr (cfg : Config) (password domain year : List Byte)
    (fixed_size flags : Nat) (st : LoopState) :
    loop_body (make_env cfg (cstr password) (cstr domain) (cstr year) fixed_size flags) st =
      loop_body (make_env cfg password domain year fixed_size flags) st := by
  have hp : ∀ seek, (if seek ≥ strlen password then 0 else seek) < strlen password ∨
      strlen password = 0 := by
    intro seek; split <;> omega
  have hd : ∀ seek, (if seek ≥ strlen domain then 0 else seek) < strlen domain ∨
      strlen domain = 0 := by
    intro seek; split <;> omega
  have hy : ∀ seek, (if seek ≥ strlen year then 0 else seek) < strlen year ∨
      strlen year = 0 := by
    intro seek; split <;> omega
  simp only [loop_body, make_env, strlen_cstr, compute_output_length_cstr]
  rcases hp st.pwd_seek with h1 | h1 <;> rcases hd st.domain_seek with h2 | h2 <;>
    rcases hy st.year_seek with h3 | h3
  all_goals
    first
    | rw [mix_step_cstr cfg _ password _ _ _ _ _ h1]
    | simp only [h1, ne_eq, not_true_eq_false, if_false]
  all_goals
    first
    | rw [mix_step_cstr cfg _ domain _ _ _ _ _ h2]
    | simp only [h2, ne_eq, not_true_eq_false, if_false]
  all_goals
    first
    | rw [mix_step_cstr cfg _ year _ _ _ _ _ h3]
    | simp only [h3, ne_eq, not_true_eq_false, if_false]

theorem mix_loop_cstr (cfg : Config) (password domain year : List Byte)
    (fixed_size flags : Nat) :
    ∀ (fuel : Nat) (st : LoopState),
      mix_loop (make_env cfg (cstr password) (cstr domain) (cstr year) fixed_size flags) fuel st =
        mix_loop (make_env cfg password domain year fixed_size flags) fuel st := by
  intro fuel
  induction fuel with
  | zero => intro st; rfl
  | succ n ih => intro st; simp only [mix_loop, loop_body_cstr, ih]

/-- With the same fuel, `generate_password` does the same on the buffers and on the
strings they hold. -/
theorem generate_password_fuel_cstr (fuel : Nat) (cfg : Config)
    (password domain year : List Byte) (fixed_size flags : Nat) :
    generate_password_fuel fuel cfg (cstr password) (cstr domain) (cstr year) fixed_size flags =
      generate_password_fuel fuel cfg password domain year fixed_size flags := by
  have hi : initial_state (make_env cfg (cstr password) (cstr domain) (cstr year) fixed_size flags)
      = initial_state (make_env cfg password domain year fixed_size flags) := by
    simp only [initial_state, initial_limit, make_env, strlen_cstr, compute_output_length_cstr]
  simp only [generate_password_fuel, mix_loop_cstr, hi]
  simp only [make_env, compute_output_length_cstr]

theorem initial_limit_cstr (cfg : Config) (password domain year : List Byte)
    (fixed_size flags : Nat) :
    initial_limit (make_env cfg (cstr password) (cstr domain) (cstr year) fixed_size flags) =
      initial_limit (make_env cfg password domain year fixed_size flags) := by
  simp only [initial_limit, make_env, strlen_cstr, compute_output_length_cstr]

/-- The outcome of `generate_password` with any sufficient fuel. -/
theorem generate_password_fuel_eq (fuel : Nat) (cfg : Config)
    (password domain year : List Byte) (fixed_size flags : Nat)
    (hfuel : Nat.max (initial_limit (make_env cfg password domain year fixed_size flags))
      ITERATION_MAX ≤ fuel) :
    generate_password_fuel fuel cfg password domain year fixed_size flags =
      generate_password cfg password domain year fixed_size flags := by
  obtain ⟨r, hr, _, hall⟩ := run_returns (make_env cfg password domain year fixed_size flags)
  simp only [generate_password, generate_password_fuel, hr, hall fuel hfuel]

/-- Every call of `generate_password` returns. -/
theorem generate_password_some (cfg : Config) (password domain year : List Byte)
    (fixed_size flags : Nat) :
    ∃ out, generate_password cfg password domain year fixed_size flags = some out ∧
      out.iteration ≤
        Nat.max (initial_limit (make_env cfg password domain year fixed_size flags))
          ITERATION_MAX := by
  obtain ⟨r, hr, hle, _⟩ := run_returns (make_env cfg password domain year fixed_size flags)
  by_cases hf : flags = 0
  · refine ⟨{ new_passwd := List.replicate 1 0, output_domain := none, password_hash := none,
              iteration := 0 }, ?_, Nat.zero_le _⟩
    simp only [generate_password, generate_password_fuel, if_pos hf]
  · obtain ⟨out, ho, _, hi⟩ := generate_password_of_run cfg password domain year fixed_size
      flags hf r hr
    exact ⟨out, ho, by rw [hi]; exact hle⟩

/-! ### Checks of the libc model on concrete strings -/

theorem atoi_examples :
    atoi [50, 48, 50, 52] = 2024 ∧ atoi [32, 43, 50, 48, 50, 52, 120] = 2024 ∧
      atoi [45, 55] = -7 ∧ atoi [97, 49] = 0 ∧ atoi [] = 0 ∧ atoi [50, 48, 0, 57] = 20 := by
  decide

theorem strncpy_example :
    strncpy [1, 2, 3, 4, 5, 6] 1 [7, 8] 4 = [1, 7, 8, 0, 0, 6] := by
  decide

/-! ## The claims -/

/-- C1 (determinism).  Two calls of `generate_password` with the same constants, the
same `fixed_size` and `flags`, and buffers that hold the same three strings
(whatever follows the terminators) both return, and they return the same outcome,
byte for byte; the outcome is also the same for every fuel from the bound on, so it
is a function of the constants and of (secret, domain, year, fixed_size, flags)
alone. -/
theorem generate_password_deterministic (cfg : Config)
    (password1 domain1 year1 password2 domain2 year2 : List Byte)
    (fixed_size flags fuel : Nat)
    (hp : cstr password1 = cstr password2) (hd : cstr domain1 = cstr domain2)
    (hy : cstr year1 = cstr year2)
    (hfuel : Nat.max (initial_limit (make_env cfg password1 domain1 year1 fixed_size flags))
      ITERATION_MAX ≤ fuel) :
    ∃ out, generate_password cfg password1 domain1 year1 fixed_size flags = some out ∧
      generate_password cfg password2 domain2 year2 fixed_size flags = some out ∧
      generate_password_fuel fuel cfg password1 domain1 year1 fixed_size flags = some out := by
  obtain ⟨out, ho, _⟩ := generate_password_some cfg password1 domain1 year1 fixed_size flags
  refine ⟨out, ho, ?_, ?_⟩
  · rw [← ho]
    simp only [generate_password]
    rw [← initial_limit_cstr cfg password2, ← generate_password_fuel_cstr _ cfg password2,
      ← initial_limit_cstr cfg password1, ← generate_password_fuel_cstr _ cfg password1,
      hp, hd, hy]
  · rw [generate_password_fuel_eq fuel cfg password1 domain1 year1 fixed_size flags hfuel, ho]

/-- C2 (alphabet containment).  With at least one category requested, the call
returns and every byte of the returned password is a symbol of the output alphabet
(the alphabets of the requested categories in the order Lower, Digit, Symbol,
Upper); each of the `output_length` positions of the buffer holds such a symbol,
none its initial zero byte. -/
theorem generate_password_alphabet_containment (cfg : Config)
    (password domain year : List Byte) (fixed_size flags : Nat) (hc : has_category flags)
    (hfit : InRange password domain year fixed_size flags) :
    ∃ out, generate_password cfg password domain year fixed_size flags = some out ∧
      (∀ b, b ∈ cstr out.new_passwd → b ∈ spec_alphabet flags) ∧
      (∀ i, i < compute_output_length fixed_size year →
        out.new_passwd.getD i 0 ∈ spec_alphabet flags ∧ out.new_passwd.getD i 0 ≠ 0) := by
  obtain ⟨out, ho, hsym, hterm, _, _, _⟩ :=
    generate_password_buffer cfg password domain year fixed_size flags hc hfit
  have hnz : ∀ i, i < compute_output_length fixed_size year → out.new_passwd.getD i 0 ≠ 0 := by
    intro i hi
    have := hsym i hi
    rw [← cstr_build_output_domain flags] at this
    exact ne_zero_of_mem_cstr _ _ this
  refine ⟨out, ho, ?_, fun i hi => ⟨hsym i hi, hnz i hi⟩⟩
  intro b hb
  obtain ⟨i, hi, rfl⟩ := mem_cstr_of_terminated _ _ hnz hterm b hb
  exact hsym i hi

/-- C3 (fixed length).  With `fixed_size = L > 0` and at least one category
requested, the call returns and the returned buffer, read as a NUL-terminated
string, has length exactly `L`; `L` is not clamped. -/
theorem generate_password_fixed_length (cfg : Config)
    (password domain year : List Byte) (L flags : Nat) (hL : 0 < L)
    (hc : has_category flags) (hfit : InRange password domain year L flags) :
    ∃ out, generate_password cfg password domain year L flags = some out ∧
      strlen out.new_passwd = L := by
  obtain ⟨out, ho, hsym, hterm, _, _, _⟩ :=
    generate_password_buffer cfg password domain year L flags hc hfit
  rw [compute_output_length_fixed L year hL] at hsym hterm
  refine ⟨out, ho, strlen_eq_of_terminated _ _ ?_ hterm⟩
  intro i hi
  have := hsym i hi
  rw [← cstr_build_output_domain flags] at this
  exact ne_zero_of_mem_cstr _ _ this

/-- C4 (year-based length).  With `fixed_size = 0`, at least one category requested
and `Y = atoi year`, the call returns a password of length 12 if `Y < 2000` and of
length `max 12 (min 256 (12 + (Y - 2000) / 5))` otherwise; the length lies in
`[12, 256]`. -/
theorem generate_password_year_length (cfg : Config)
    (password domain year : List Byte) (flags : Nat)
    (hc : has_category flags) (hfit : InRange password domain year 0 flags) :
    ∃ out, generate_password cfg password domain year 0 flags = some out ∧
      strlen out.new_passwd =
        (if atoi year < 2000 then 12
         else Nat.max 12 (Nat.min 256 (12 + ((atoi year - 2000) / 5).toNat))) ∧
      12 ≤ strlen out.new_passwd ∧ strlen out.new_passwd ≤ 256 := by
  obtain ⟨out, ho, hsym, hterm, _, _, _⟩ :=
    generate_password_buffer cfg password domain year 0 flags hc hfit
  have hlen : strlen out.new_passwd = compute_output_length 0 year := by
    refine strlen_eq_of_terminated _ _ ?_ hterm
    intro i hi
    have := hsym i hi
    rw [← cstr_build_output_domain flags] at this
    exact ne_zero_of_mem_cstr _ _ this
  have hb := compute_output_length_year_bounds year
  refine ⟨out, ho, ?_, ?_, ?_⟩
  · rw [hlen, compute_output_length_year]
  · rw [hlen]; exact hb.1
  · rw [hlen]; exact hb.2

/-- C5 (no category).  With `flags = 0` the call returns the empty string: a buffer
that holds only the terminator.  No iteration of the loop runs (the result needs no
fuel) and no accumulator array is allocated. -/
theorem generate_password_no_category (cfg : Config) (password domain year : List Byte)
    (fixed_size : Nat) :
    ∃ out, generate_password cfg password domain year fixed_size 0 = some out ∧
      out.new_passwd = [0] ∧ cstr out.new_passwd = [] ∧ strlen out.new_passwd = 0 ∧
      out.iteration = 0 ∧ out.password_hash = none ∧
      ∀ fuel, generate_password_fuel fuel cfg password domain year fixed_size 0 = some out :=
  ⟨{ new_passwd := List.replicate 1 0, output_domain := none, password_hash := none,
     iteration := 0 }, rfl, rfl, rfl, rfl, rfl, rfl, fun _ => rfl⟩

/-- C6 (alphabet construction).  For every value of `flags`, the string that
`generate_password` builds in `output_domain` is the concatenation, in the order
Lower, Digit, Symbol, Upper, of the alphabets whose flag is set; a symbol of a
category is in it if and only if the flag of the category is set; its length is the
sum of the lengths of those alphabets. -/
theorem output_alphabet_construction (flags : Nat) :
    cstr (build_output_domain flags) =
      (if flag_set flags FLAG_LOW_AVAIL then OUTPUT_LOW else []) ++
      (if flag_set flags FLAG_DIG_AVAIL then OUTPUT_DIG else []) ++
      (if flag_set flags FLAG_SYM_AVAIL then OUTPUT_SYM else []) ++
      (if flag_set flags FLAG_UPP_AVAIL then OUTPUT_UPP else []) ∧
    (∀ (c : Category) (b : Byte), b ∈ c.alphabet →
      (b ∈ cstr (build_output_domain flags) ↔ flag_set flags c.flag = true)) ∧
    strlen (build_output_domain flags) =
      (if flag_set flags FLAG_LOW_AVAIL then 26 else 0) +
      (if flag_set flags FLAG_DIG_AVAIL then 10 else 0) +
      (if flag_set flags FLAG_SYM_AVAIL then 17 else 0) +
      (if flag_set flags FLAG_UPP_AVAIL then 26 else 0) := by
  obtain ⟨_, h2, h3⟩ := build_output_domain_bits _ _ _ _ flags rfl rfl rfl rfl
  refine ⟨h2, ?_, h3⟩
  rw [h2]
  intro c b hb
  have := category_symbol_mem (flag_set flags FLAG_LOW_AVAIL) (flag_set flags FLAG_DIG_AVAIL)
    (flag_set flags FLAG_SYM_AVAIL) (flag_set flags FLAG_UPP_AVAIL) c b hb
  simp only [spec_alphabet]
  rw [this]
  cases c <;> rfl

/-- C7 (category checker).  `check_password` returns TRUE if and only if, for every
requested category, some symbol of the password is in the alphabet of that category;
so it returns TRUE when no category is requested, and FALSE on the empty password as
soon as one category is requested. -/
theorem check_password_spec (password : List Byte) (flags : Nat) :
    (check_password password flags = true ↔
      ∀ c : Category, requested flags c → ∃ b, b ∈ cstr password ∧ b ∈ c.alphabet) ∧
    (¬ has_category flags → check_password password flags = true) ∧
    (has_category flags → cstr password = [] → check_password password flags = false) := by
  refine ⟨check_password_eq_true_iff password flags, ?_, ?_⟩
  · intro hn
    rw [check_password_eq_true_iff]
    intro c hc
    exact absurd ⟨c, hc⟩ hn
  · rintro ⟨c, hc⟩ hempty
    cases hcp : check_password password flags with
    | false => rfl
    | true =>
      obtain ⟨b, hb, _⟩ := (check_password_eq_true_iff password flags).1 hcp c hc
      rw [hempty] at hb
      exact absurd hb (List.not_mem_nil b)

/-- C8 (totality and termination).  For every secret, domain, year, `fixed_size` and
`flags`, the call returns, after at most `max (initial limit) ITERATION_MAX`
iterations, and every fuel from that bound on gives the same outcome.  In range, an
iteration that changes the limit does so from a limit below `ITERATION_MAX`, raises
it strictly and leaves it at most `ITERATION_MAX`. -/
theorem generate_password_returns (cfg : Config) (password domain year : List Byte)
    (fixed_size flags : Nat) :
    (∃ out, generate_password cfg password domain year fixed_size flags = some out ∧
      out.iteration ≤
        Nat.max (initial_limit (make_env cfg password domain year fixed_size flags))
          ITERATION_MAX ∧
      ∀ fuel,
        Nat.max (initial_limit (make_env cfg password domain year fixed_size flags))
          ITERATION_MAX ≤ fuel →
        generate_password_fuel fuel cfg password domain year fixed_size flags = some out) ∧
    (InRange password domain year fixed_size flags →
      ∀ st : LoopState,
        (loop_body (make_env cfg password domain year fixed_size flags) st).limit ≠ st.limit →
        st.limit < ITERATION_MAX ∧
        st.limit < (loop_body (make_env cfg password domain year fixed_size flags) st).limit ∧
        (loop_body (make_env cfg password domain year fixed_size flags) st).limit
          ≤ ITERATION_MAX) := by
  constructor
  · obtain ⟨out, ho, hle⟩ := generate_password_some cfg password domain year fixed_size flags
    refine ⟨out, ho, hle, fun fuel hf => ?_⟩
    rw [generate_password_fuel_eq fuel cfg password domain year fixed_size flags hf, ho]
  · intro hfit st hne
    have hpos := compute_output_length_pos fixed_size year
    have hle := compute_output_length_le fixed_size year
    simp only [InRange] at hfit
    rw [loop_body_limit] at hne ⊢
    split at hne
    · rename_i hcond
      have hlt := hcond.1.2
      rw [if_pos hcond]
      simp only [make_env, ITERATION_MAX, SIZE_MOD] at hlt ⊢
      have hm : (st.limit + compute_output_length fixed_size year) % 2 ^ 64 =
          st.limit + compute_output_length fixed_size year := Nat.mod_eq_of_lt (by omega)
      rw [hm]
      split <;> omega
    · exact absurd rfl hne

/-- C9 (coverage unless the ceiling is reached).  With at least one category
requested, the call returns, and if it stopped after fewer than `ITERATION_MAX`
iterations the returned password passes `check_password` for the requested
categories; equivalently, a returned password that fails the check comes from a run
of at least `ITERATION_MAX` iterations. -/
theorem generate_password_coverage (cfg : Config) (password domain year : List Byte)
    (fixed_size flags : Nat) (hc : has_category flags)
    (hfit : InRange password domain year fixed_size flags) :
    ∃ out, generate_password cfg password domain year fixed_size flags = some out ∧
      (out.iteration < ITERATION_MAX → check_password out.new_passwd flags = true) ∧
      (check_password out.new_passwd flags = false → ITERATION_MAX ≤ out.iteration) := by
  obtain ⟨out, ho, _, _, _, _, hchk⟩ :=
    generate_password_buffer cfg password domain year fixed_size flags hc hfit
  refine ⟨out, ho, hchk, fun hfalse => ?_⟩
  by_contra hlt
  rw [hchk (by omega)] at hfalse
  exact absurd hfalse (by simp)

/-- C10, refuted as stated: with empty secret, domain and year, `fixed_size = 1000`
and all four categories, the initial limit is `79 * (1000 + 15) = 80185` and the loop
runs more than `ITERATION_MAX = 65536` iterations. -/
theorem generate_password_exceeds_ceiling :
    ∃ out, generate_password sample_config [] [] [] 1000 15 = some out ∧
      ITERATION_MAX < out.iteration := by
  have hc : has_category 15 := ⟨Category.Lower, by decide⟩
  have hfit : InRange [] [] [] 1000 15 := by decide
  obtain ⟨out, ho, _, _, _, hge, _⟩ :=
    generate_password_buffer sample_config [] [] [] 1000 15 hc hfit
  refine ⟨out, ho, ?_⟩
  rw [initial_limit_exact sample_config [] [] [] 1000 15 hfit] at hge
  have h79 : strlen (build_output_domain 15) = 79 :=
    (build_output_domain_bits true true true true 15 (by decide) (by decide) (by decide)
      (by decide)).2.2
  rw [h79, compute_output_length_fixed 1000 [] (by decide)] at hge
  simp only [ITERATION_MAX]
  have h0 : strlen ([] : List Byte) = 0 := rfl
  rw [h0] at hge
  omega

/-- C10, amended: the number of iterations of every call is at most the larger of
the initial limit and `ITERATION_MAX`; it is at most `ITERATION_MAX` whenever the
initial limit is. -/
theorem generate_password_iteration_bound (cfg : Config) (password domain year : List Byte)
    (fixed_size flags : Nat) :
    ∃ out, generate_password cfg password domain year fixed_size flags = some out ∧
      out.iteration ≤
        Nat.max (initial_limit (make_env cfg password domain year fixed_size flags))
          ITERATION_MAX ∧
      (initial_limit (make_env cfg password domain year fixed_size flags) ≤ ITERATION_MAX →
        out.iteration ≤ ITERATION_MAX) := by
  obtain ⟨out, ho, hle⟩ := generate_password_some cfg password domain year fixed_size flags
  refine ⟨out, ho, hle, fun h => ?_⟩
  exact Nat.le_trans hle (Nat.max_le.2 ⟨h, Nat.le_refl _⟩)

/-! ### The claims at concrete inputs -/

theorem generate_password_deterministic_witness :
    (cstr sample_secret = cstr sample_secret ∧ cstr sample_domain = cstr sample_domain ∧
      cstr sample_year_buffer = cstr sample_year ∧
      Nat.max (initial_limit (make_env sample_config sample_secret sample_domain
        sample_year_buffer 0 15)) ITERATION_MAX ≤ 70000) ∧
    ∃ out, generate_password sample_config sample_secret sample_domain sample_year_buffer 0 15
        = some out ∧
      generate_password sample_config sample_secret sample_domain sample_year 0 15 = some out ∧
      generate_password_fuel 70000 sample_config sample_secret sample_domain
        sample_year_buffer 0 15 = some out :=
  ⟨⟨rfl, rfl, by decide, by decide⟩,
   generate_password_deterministic sample_config sample_secret sample_domain
     sample_year_buffer sample_secret sample_domain sample_year 0 15 70000 rfl rfl
     (by decide) (by decide)⟩

theorem generate_password_alphabet_containment_witness :
    (has_category 15 ∧ InRange sample_secret sample_domain sample_year 0 15) ∧
    ∃ out, generate_password sample_config sample_secret sample_domain sample_year 0 15
        = some out ∧
      (∀ b, b ∈ cstr out.new_passwd → b ∈ spec_alphabet 15) ∧
      (∀ i, i < compute_output_length 0 sample_year →
        out.new_passwd.getD i 0 ∈ spec_alphabet 15 ∧ out.new_passwd.getD i 0 ≠ 0) :=
  ⟨⟨⟨Category.Lower, by decide⟩, by decide⟩,
   generate_password_alphabet_containment sample_config sample_secret sample_domain
     sample_year 0 15 ⟨Category.Lower, by decide⟩ (by decide)⟩

theorem generate_password_fixed_length_witness :
    (0 < 8 ∧ has_category 5 ∧ InRange sample_secret sample_domain sample_year 8 5) ∧
    ∃ out, generate_password sample_config sample_secret sample_domain sample_year 8 5
        = some out ∧ strlen out.new_passwd = 8 :=
  ⟨⟨by decide, ⟨Category.Digit, by decide⟩, by decide⟩,
   generate_password_fixed_length sample_config sample_secret sample_domain sample_year 8 5
     (by decide) ⟨Category.Digit, by decide⟩ (by decide)⟩

theorem generate_password_year_length_witness :
    (has_category 15 ∧ InRange sample_secret sample_domain sample_year 0 15) ∧
    ∃ out, generate_password sample_config sample_secret sample_domain sample_year 0 15
        = some out ∧
      strlen out.new_passwd =
        (if atoi sample_year < 2000 then 12
         else Nat.max 12 (Nat.min 256 (12 + ((atoi sample_year - 2000) / 5).toNat))) ∧
      12 ≤ strlen out.new_passwd ∧ strlen out.new_passwd ≤ 256 :=
  ⟨⟨⟨Category.Upper, by decide⟩, by decide⟩,
   generate_password_year_length sample_config sample_secret sample_domain sample_year 15
     ⟨Category.Upper, by decide⟩ (by decide)⟩

theorem check_password_spec_witness :
    (¬ has_category 16 ∧ has_category 4 ∧ cstr ([0, 49] : List Byte) = []) ∧
    check_password sample_secret 16 = true ∧ check_password [0, 49] 4 = false :=
  ⟨⟨by rintro ⟨c, hc⟩; cases c <;> exact absurd hc (by decide),
     ⟨Category.Digit, by decide⟩, by decide⟩,
   (check_password_spec sample_secret 16).2.1
     (by rintro ⟨c, hc⟩; cases c <;> exact absurd hc (by decide)),
   (check_password_spec [0, 49] 4).2.2 ⟨Category.Digit, by decide⟩ (by decide)⟩

theorem generate_password_returns_witness :
    InRange sample_secret sample_domain sample_year 0 15 ∧
    ∀ st : LoopState,
      (loop_body (make_env sample_config sample_secret sample_domain sample_year 0 15) st).limit
        ≠ st.limit →
      st.limit < ITERATION_MAX ∧
      st.limit <
        (loop_body (make_env sample_config sample_secret sample_domain sample_year 0 15)
          st).limit ∧
      (loop_body (make_env sample_config sample_secret sample_domain sample_year 0 15) st).limit
        ≤ ITERATION_MAX :=
  ⟨by decide,
   (generate_password_returns sample_config sample_secret sample_domain sample_year 0 15).2
     (by decide)⟩

theorem generate_password_coverage_witness :
    (has_category 15 ∧ InRange sample_secret sample_domain sample_year 0 15) ∧
    ∃ out, generate_password sample_config sample_secret sample_domain sample_year 0 15
        = some out ∧
      (out.iteration < ITERATION_MAX → check_password out.new_passwd 15 = true) ∧
      (check_password out.new_passwd 15 = false → ITERATION_MAX ≤ out.iteration) :=
  ⟨⟨⟨Category.Symbol, by decide⟩, by decide⟩,
   generate_password_coverage sample_config sample_secret sample_domain sample_year 0 15
     ⟨Category.Symbol, by decide⟩ (by decide)⟩

theorem generate_password_iteration_bound_witness :
    initial_limit (make_env sample_config sample_secret sample_domain sample_year 0 15)
        ≤ ITERATION_MAX ∧
    ∃ out, generate_password sample_config sample_secret sample_domain sample_year 0 15
        = some out ∧ out.iteration ≤ ITERATION_MAX :=
  ⟨by decide,
   (generate_password_iteration_bound sample_config sample_secret sample_domain sample_year
     0 15).imp (fun _ h => ⟨h.1, h.2.2 (by decide)⟩)⟩

/-! ### Length and symbols of the returned password -/

/-- The password returned by a run in range with a category has the computed length
and consists of symbols of the output alphabet. -/
theorem generate_password_strlen (cfg : Config) (password domain year : List Byte)
    (fixed_size flags : Nat) (hc : has_category flags)
    (hfit : InRange password domain year fixed_size flags) :
    ∃ out, generate_password cfg password domain year fixed_size flags = some out ∧
      strlen out.new_passwd = compute_output_length fixed_size year ∧
      ∀ b, b ∈ cstr out.new_passwd → b ∈ spec_alphabet flags := by
  obtain ⟨out, ho, hsym, hterm, _, _, _⟩ :=
    generate_password_buffer cfg password domain year fixed_size flags hc hfit
  have hnz : ∀ i, i < compute_output_length fixed_size year → out.new_passwd.getD i 0 ≠ 0 := by
    intro i hi
    have := hsym i hi
    rw [← cstr_build_output_domain flags] at this
    exact ne_zero_of_mem_cstr _ _ this
  refine ⟨out, ho, strlen_eq_of_terminated _ _ hnz hterm, ?_⟩
  intro b hb
  obtain ⟨i, hi, rfl⟩ := mem_cstr_of_terminated _ _ hnz hterm b hb
  exact hsym i hi

/-! ### The strength estimator: its integer parts -/

theorem strength_alphabet_size_bits (flags : Nat) :
    strength_alphabet_size flags =
      (if flag_set flags FLAG_LOW_AVAIL then 26 else 0) +
      (if flag_set flags FLAG_DIG_AVAIL then 10 else 0) +
      (if flag_set flags FLAG_SYM_AVAIL then 17 else 0) +
      (if flag_set flags FLAG_UPP_AVAIL then 26 else 0) := by
  simp only [strength_alphabet_size]
  cases flag_set flags FLAG_LOW_AVAIL <;> cases flag_set flags FLAG_DIG_AVAIL <;>
    cases flag_set flags FLAG_SYM_AVAIL <;> cases flag_set flags FLAG_UPP_AVAIL <;> rfl

/-- The divisor without the wrap, from 1940 on. -/
theorem strength_divisor_of_ge (year : Nat) (hy : year < UINT_MOD) (h : 1940 ≤ year) :
    strength_divisor year = Nat.max (year / 5 - 388) 12 := by
  simp only [UINT_MOD] at hy
  simp only [strength_divisor, max, UINT_MOD, Nat.max_def]
  have hm : (year / 5 + (2 ^ 32 - 388)) % 2 ^ 32 = year / 5 - 388 := by omega
  rw [hm]
  split <;> split <;> omega

/-- The divisor below 1940: the wrapped difference. -/
theorem strength_divisor_of_lt (year : Nat) (h : year < 1940) :
    strength_divisor year = 2 ^ 32 - (388 - year / 5) := by
  simp only [strength_divisor, max, UINT_MOD]
  have hm : (year / 5 + (2 ^ 32 - 388)) % 2 ^ 32 = 2 ^ 32 - (388 - year / 5) := by omega
  rw [hm]
  split <;> omega

/-- From 2000 on the divisor does not decrease with the year. -/
theorem strength_divisor_mono (year1 year2 : Nat) (h1 : 2000 ≤ year1) (h12 : year1 ≤ year2)
    (h2 : year2 < UINT_MOD) : strength_divisor year1 ≤ strength_divisor year2 := by
  rw [strength_divisor_of_ge year1 (by omega) (by omega),
    strength_divisor_of_ge year2 h2 (by omega)]
  simp only [Nat.max_def]
  split <;> split <;> omega

/-! ### The accumulators -/

theorem char_to_uint_of_lt (cfg : Config) (b : Byte) (h : b.val < 128) :
    char_to_uint cfg b = b.val := by
  simp only [char_to_uint]
  rw [if_neg]
  simp only [Bool.and_eq_true, decide_eq_true_eq, not_and, Nat.not_le]
  exact fun _ => h

theorem char_to_uint_of_unsigned (cfg : Config) (b : Byte) (h : cfg.char_signed = false) :
    char_to_uint cfg b = b.val := by
  simp [char_to_uint, h]

theorem mix_step_lt (cfg : Config) (hash : Nat) (s : List Byte) (len seek output_seek : Nat)
    (mul seek_mul inv_mul : Nat) :
    mix_step cfg hash s len seek output_seek mul seek_mul inv_mul < 65536 := by
  simp only [mix_step]
  exact Nat.mod_lt _ (by norm_num)

/-- The wraps of `unsigned int` and `size_t` do not show modulo 65536. -/
theorem mix_step_mod (cfg : Config) (hash : Nat) (s : List Byte) (len seek output_seek : Nat)
    (mul seek_mul inv_mul : Nat) :
    mix_step cfg hash s len seek output_seek mul seek_mul inv_mul =
      (hash + char_to_uint cfg (s.getD seek 0) * mul + output_seek * seek * seek_mul
        + char_to_uint cfg (s.getD (len - seek - 1) 0) * inv_mul) % 65536 := by
  simp only [mix_step, UINT_MOD, SIZE_MOD]
  have hcross : (output_seek * seek % 2 ^ 64 * seek_mul) % 65536 =
      (output_seek * seek * seek_mul) % 65536 := by
    rw [Nat.mul_mod, Nat.mod_mod_of_dvd _ (by norm_num : 65536 ∣ 2 ^ 64), ← Nat.mul_mod]
  generalize char_to_uint cfg (s.getD seek 0) * mul = t1
  generalize char_to_uint cfg (s.getD (len - seek - 1) 0) * inv_mul = t3
  generalize output_seek * seek % 2 ^ 64 * seek_mul = t2 at hcross ⊢
  generalize output_seek * seek * seek_mul = t4 at hcross ⊢
  omega

/-- The accumulator update of the code is the update of the specification whenever
the two bytes it reads convert to their values `0..255`. -/
theorem mix_step_eq_spec (cfg : Config) (hash : Nat) (s : List Byte)
    (len seek output_seek : Nat) (mul seek_mul inv_mul : Nat)
    (h1 : char_to_uint cfg (s.getD seek 0) = (s.getD seek 0).val)
    (h2 : char_to_uint cfg (s.getD (len - seek - 1) 0) = (s.getD (len - seek - 1) 0).val) :
    mix_step cfg hash s len seek output_seek mul seek_mul inv_mul =
      spec_mix_step hash s len seek output_seek mul seek_mul inv_mul := by
  rw [mix_step_mod, h1, h2]
  simp only [spec_mix_step]
  rw [show len - 1 - seek = len - seek - 1 by omega]

theorem getD_val_lt_of_forall (s : List Byte) (i : Nat) (h : ∀ b ∈ s, b.val < 128) :
    (s.getD i 0).val < 128 := by
  rcases Nat.lt_or_ge i s.length with hi | hi
  · rw [List.getD_eq_getElem _ _ hi]; exact h _ (List.getElem_mem hi)
  · rw [List.getD_eq_default _ _ hi]; decide

theorem forall_mem_set_lt (l : List Nat) (i v : Nat) (hl : ∀ x ∈ l, x < 65536)
    (hv : v < 65536) : ∀ x ∈ l.set i v, x < 65536 := by
  intro x hx
  rcases List.mem_or_eq_of_mem_set hx with h | h
  · exact hl x h
  · rw [h]; exact hv

theorem forall_mem_cond_set_lt (c : Prop) [Decidable c] (l : List Nat) (i v : Nat)
    (hl : ∀ x ∈ l, x < 65536) (hv : v < 65536) :
    ∀ x ∈ (if c then l.set i v else l), x < 65536 := by
  split
  · exact forall_mem_set_lt l i v hl hv
  · exact hl

/-- An iteration keeps the length of the accumulator array and the bound of its
entries. -/
theorem loop_body_password_hash (e : Env) (st : LoopState) :
    (loop_body e st).password_hash.length = st.password_hash.length ∧
    ((∀ x ∈ st.password_hash, x < 65536) → ∀ x ∈ (loop_body e st).password_hash, x < 65536) := by
  simp only [loop_body]
  constructor
  · split <;> split <;> split <;> simp only [List.length_set]
  · intro h
    refine forall_mem_cond_set_lt _ _ _ _ ?_ (mix_step_lt _ _ _ _ _ _ _ _ _)
    refine forall_mem_cond_set_lt _ _ _ _ ?_ (mix_step_lt _ _ _ _ _ _ _ _ _)
    exact forall_mem_cond_set_lt _ _ _ _ h (mix_step_lt _ _ _ _ _ _ _ _ _)

/-! ### Runs on empty inputs -/

/-- With the three strings empty an iteration leaves the accumulators alone and
writes the symbol that the current accumulator selects. -/
theorem loop_body_of_empty (e : Env) (st : LoopState) (h1 : e.password_length = 0)
    (h2 : e.domain_length = 0) (h3 : e.year_length = 0) :
    (loop_body e st).password_hash = st.password_hash ∧
    (loop_body e st).new_passwd =
      st.new_passwd.set (if st.output_seek ≥ e.output_length then 0 else st.output_seek)
        (e.output_domain.getD
          (st.password_hash.getD (if st.output_seek ≥ e.output_length then 0 else st.output_seek) 0
            % e.output_domain_size) 0) := by
  simp only [loop_body, h1, h2, h3, ne_eq, not_true_eq_false, if_false]
  exact ⟨trivial, trivial⟩

theorem getD_eq_zero_of_forall (l : List Nat) (i : Nat) (h : ∀ x ∈ l, x = 0) :
    l.getD i 0 = 0 := by
  rcases Nat.lt_or_ge i l.length with hi | hi
  · rw [List.getD_eq_getElem _ _ hi]; exact h _ (List.getElem_mem hi)
  · exact List.getD_eq_default _ _ hi

/-- Two buffers of the same length that agree at every index are equal. -/
theorem eq_of_getD (l1 l2 : List Byte) (hlen : l1.length = l2.length)
    (h : ∀ i, i < l1.length → l1.getD i 0 = l2.getD i 0) : l1 = l2 := by
  apply List.ext_getElem hlen
  intro i h1 h2
  have := h i h1
  rwa [List.getD_eq_getElem _ _ h1, List.getD_eq_getElem _ _ h2] at this

/-- With the three strings empty, every byte of the buffer is, at any time, its
initial zero or the first symbol of the domain, and the accumulators stay zero. -/
theorem inv_step_of_empty (e : Env) (he : EnvOK e) (h1 : e.password_length = 0)
    (h2 : e.domain_length = 0) (h3 : e.year_length = 0) (st : LoopState)
    (hI : Inv e st ∧ (∀ x ∈ st.password_hash, x = 0) ∧
      ∀ p, st.new_passwd.getD p 0 = 0 ∨ st.new_passwd.getD p 0 = e.output_domain.getD 0 0)
    (hlt : st.iteration < st.limit) :
    Inv e (loop_body e st) ∧ (∀ x ∈ (loop_body e st).password_hash, x = 0) ∧
      ∀ p, (loop_body e st).new_passwd.getD p 0 = 0 ∨
        (loop_body e st).new_passwd.getD p 0 = e.output_domain.getD 0 0 := by
  obtain ⟨hInv, hz, hb⟩ := hI
  obtain ⟨hh, hn⟩ := loop_body_of_empty e st h1 h2 h3
  refine ⟨inv_step e he st hInv hlt, by rw [hh]; exact hz, ?_⟩
  intro p
  rw [hn, getD_eq_zero_of_forall _ _ hz, Nat.zero_mod]
  have hpos := he.length_pos
  have hseek : (if st.output_seek ≥ e.output_length then 0 else st.output_seek)
      < st.new_passwd.length := by
    rw [hInv.len]; split <;> omega
  by_cases hp : (if st.output_seek ≥ e.output_length then 0 else st.output_seek) = p
  · right
    rw [List.getD_eq_getElem?_getD, hp, List.getElem?_set_self (by rw [← hp]; exact hseek)]
    rfl
  · rw [List.getD_eq_getElem?_getD, List.getElem?_set_ne hp, ← List.getD_eq_getElem?_getD]
    exact hb p

set_option maxRecDepth 100000 in
/-- The domain of all four categories: 79 symbols, the first of them `a`. -/
theorem build_output_domain_all :
    strlen (build_output_domain 15) = 79 ∧ (build_output_domain 15).getD 0 0 = 97 :=
  ⟨rfl, rfl⟩

theorem compute_output_length_empty_year : compute_output_length 0 [] = 12 := by decide

theorem check_password_all_a :
    check_password [97, 97, 97, 97, 97, 97, 97, 97, 97, 97, 97, 97, 0] 15 = false := by decide

/-- The run on three empty strings, no fixed size and all four categories: the final
loop state. -/
theorem run_of_empty (cfg : Config) :
    ∃ r, mix_loop (make_env cfg [] [] [] 0 15)
        (Nat.max (initial_limit (make_env cfg [] [] [] 0 15)) ITERATION_MAX)
        (initial_state (make_env cfg [] [] [] 0 15)) = some r ∧
      r.new_passwd = [97, 97, 97, 97, 97, 97, 97, 97, 97, 97, 97, 97, 0] ∧ r.iteration = ITERATION_MAX := by
  have hc : has_category 15 := ⟨Category.Lower, by decide⟩
  have hfit : InRange [] [] [] 0 15 := by decide
  have he := envOK_make_env cfg [] [] [] 0 15 hc hfit
  have hol : (make_env cfg [] [] [] 0 15).output_length = 12 := compute_output_length_empty_year
  have ha : (make_env cfg [] [] [] 0 15).output_domain.getD 0 0 = 97 := build_output_domain_all.2
  have hlim : initial_limit (make_env cfg [] [] [] 0 15) = 2133 := by
    rw [initial_limit_exact cfg [] [] [] 0 15 hfit, build_output_domain_all.1,
      compute_output_length_empty_year]
    rfl
  obtain ⟨r, hr, hle, _⟩ := run_returns (make_env cfg [] [] [] 0 15)
  have hinv := mix_loop_invariant (make_env cfg [] [] [] 0 15)
    (fun st => Inv (make_env cfg [] [] [] 0 15) st ∧ (∀ x ∈ st.password_hash, x = 0) ∧
      ∀ p, st.new_passwd.getD p 0 = 0 ∨
        st.new_passwd.getD p 0 = (make_env cfg [] [] [] 0 15).output_domain.getD 0 0)
    (inv_step_of_empty _ he rfl rfl rfl) _ _ r
    ⟨inv_initial _, fun x hx => List.eq_of_mem_replicate hx, fun p => Or.inl (by
      simp only [initial_state, List.getD_eq_getElem?_getD, List.getElem?_replicate]
      split <;> rfl)⟩ hr
  obtain ⟨⟨hI, _, hq⟩, hexit⟩ := hinv
  have hit : r.iteration = r.limit := by have := hI.it_le; omega
  have hge := hI.limit_ge
  rw [hlim] at hge hle
  have h97 : ∀ p, p < 12 → r.new_passwd.getD p 0 = 97 := by
    intro p hp
    have hw := hI.written p (by rw [hol]; exact hp) (by omega)
    rcases hq p with h0 | h1
    · rw [h0] at hw; exact absurd rfl (ne_zero_of_mem_cstr _ _ hw)
    · rw [h1, ha]
  have hterm := hI.term
  have hlen := hI.len
  rw [hol] at hterm hlen
  have hpw : r.new_passwd = [97, 97, 97, 97, 97, 97, 97, 97, 97, 97, 97, 97, 0] := by
    apply eq_of_getD _ _ (by rw [hlen]; rfl)
    intro i hi
    rw [hlen] at hi
    rcases Nat.lt_or_ge i 12 with h | h
    · rw [h97 i h]
      interval_cases i <;> rfl
    · have : i = 12 := by omega
      rw [this, hterm]; rfl
  refine ⟨r, hr, hpw, ?_⟩
  have hmax : ITERATION_MAX ≤ r.limit := by
    by_contra hn
    have := hI.checked (by omega) hit (by omega)
    rw [hpw] at this
    have hflags : (make_env cfg [] [] [] 0 15).flags = 15 := rfl
    rw [hflags, check_password_all_a] at this
    exact absurd this (by simp)
  have hle2 : r.iteration ≤ ITERATION_MAX := by
    simp only [ITERATION_MAX, Nat.max_def] at hle ⊢
    split at hle <;> omega
  omega

set_option maxRecDepth 1000000 in
/-- The run on the secret `"é"` (UTF-8), the domain `"example.com"`, the year `"2024"`,
six symbols and digits only, evaluated for a signed and for an unsigned plain
`char`. -/
theorem run_utf8_secret :
    (generate_password sample_config sample_secret_utf8 sample_domain sample_year 6 4).map
        (fun o => o.new_passwd) = some [48, 52, 52, 54, 57, 55, 0] ∧
    (generate_password sample_config_unsigned sample_secret_utf8 sample_domain sample_year
        6 4).map (fun o => o.new_passwd) = some [56, 50, 56, 48, 55, 49, 0] := by
  decide

/-- The two internal buffers in the outcome of `generate_password`, in terms of the
final loop state. -/
theorem generate_password_of_run_buffers (cfg : Config) (password domain year : List Byte)
    (fixed_size flags : Nat) (hf : flags ≠ 0) (r : LoopState)
    (hr : mix_loop (make_env cfg password domain year fixed_size flags)
      (Nat.max (initial_limit (make_env cfg password domain year fixed_size flags))
        ITERATION_MAX)
      (initial_state (make_env cfg password domain year fixed_size flags)) = some r) :
    ∃ out, generate_password cfg password domain year fixed_size flags = some out ∧
      out.output_domain = some (final_output_domain cfg (build_output_domain flags)) ∧
      out.password_hash =
        some (final_password_hash cfg r.password_hash
          (compute_output_length fixed_size year)) := by
  simp only [generate_password, generate_password_fuel, if_neg hf, hr]
  exact ⟨_, rfl, rfl, rfl⟩

/-- The accumulator array keeps its length, and its entries stay below 65536, all
along the loop. -/
theorem mix_loop_password_hash (e : Env) (fuel : Nat) (r : LoopState)
    (hr : mix_loop e fuel (initial_state e) = some r) :
    r.password_hash.length = e.output_length ∧ ∀ x ∈ r.password_hash, x < 65536 := by
  have := mix_loop_invariant e
    (fun st => st.password_hash.length = e.output_length ∧ ∀ x ∈ st.password_hash, x < 65536)
    (by
      intro st ⟨h1, h2⟩ _
      obtain ⟨h3, h4⟩ := loop_body_password_hash e st
      exact ⟨by rw [h3, h1], h4 h2⟩)
    fuel (initial_state e) r
    ⟨by simp [initial_state], fun x hx => by
      rw [List.eq_of_mem_replicate hx]; norm_num⟩ hr
  exact this.1

/-- C11 (coverage can fail, the call still returns).  With the secret, the domain and
the year all empty, no fixed size and all four categories, for every choice of the
constants the call returns after exactly `ITERATION_MAX = 65536` iterations the
12-character password `"aaaaaaaaaaaa"`, which does not pass `check_password`. -/
theorem generate_password_ceiling_without_coverage (cfg : Config) :
    ∃ out, generate_password cfg [] [] [] 0 15 = some out ∧
      out.new_passwd = [97, 97, 97, 97, 97, 97, 97, 97, 97, 97, 97, 97, 0] ∧
      cstr out.new_passwd = [97, 97, 97, 97, 97, 97, 97, 97, 97, 97, 97, 97] ∧
      strlen out.new_passwd = 12 ∧
      out.iteration = 65536 ∧
      check_password out.new_passwd 15 = false := by
  obtain ⟨r, hr, hpw, hit⟩ := run_of_empty cfg
  obtain ⟨out, ho, hp, hi⟩ := generate_password_of_run cfg [] [] [] 0 15 (by decide) r hr
  rw [← hp] at hpw
  rw [← hi] at hit
  refine ⟨out, ho, hpw, ?_, ?_, hit, ?_⟩
  · rw [hpw]; decide
  · rw [hpw]; decide
  · rw [hpw]; exact check_password_all_a

/-- C12, at a failing input: for the secret `"é"` (bytes 195, 169), the domain
`"example.com"`, the year `"2024"`, six symbols and digits only, the same nine
constants give the password `"044697"` where plain `char` is signed and `"828071"`
where it is unsigned. -/
theorem generate_password_depends_on_char_signedness :
    sample_config_unsigned = { sample_config with char_signed := false } ∧
    ∃ out_signed out_unsigned,
      generate_password sample_config sample_secret_utf8 sample_domain sample_year 6 4
        = some out_signed ∧
      generate_password sample_config_unsigned sample_secret_utf8 sample_domain sample_year 6 4
        = some out_unsigned ∧
      cstr out_signed.new_passwd = [48, 52, 52, 54, 57, 55] ∧
      cstr out_unsigned.new_passwd = [56, 50, 56, 48, 55, 49] ∧
      out_signed.new_passwd ≠ out_unsigned.new_passwd := by
  refine ⟨rfl, ?_⟩
  obtain ⟨h1, h2⟩ := run_utf8_secret
  obtain ⟨o1, ho1, hp1⟩ := Option.map_eq_some'.1 h1
  obtain ⟨o2, ho2, hp2⟩ := Option.map_eq_some'.1 h2
  refine ⟨o1, o2, ho1, ho2, ?_, ?_, ?_⟩
  · rw [hp1]; decide
  · rw [hp2]; decide
  · rw [hp1, hp2]; decide

/-- C13 (strength of the empty password).  On a password of length 0,
`get_password_strength` returns `0.0` whatever the year and the flags, the value
being the literal of the early return and no result of a floating-point operation;
so the password that `generate_password` derives with no category has strength
`0.0`. -/
theorem get_password_strength_empty (cfg : Config) (password : List Byte) (year flags : Nat)
    (h : strlen password = 0) :
    get_password_strength cfg password year flags = 0.0 ∧
    ∀ (secret domain year_label : List Byte) (fixed_size : Nat),
      ∃ out, generate_password cfg secret domain year_label fixed_size 0 = some out ∧
        get_password_strength cfg out.new_passwd year flags = 0.0 := by
  constructor
  · simp only [get_password_strength, h, Nat.le_refl, if_true]
  · intro secret domain year_label fixed_size
    exact ⟨{ new_passwd := List.replicate 1 0, output_domain := none, password_hash := none,
             iteration := 0 }, rfl, rfl⟩

/-- C14 (strength divisor).  The divisor of `get_password_strength` is
`max(year / 5 - 388, 12)` with the difference taken in 32-bit unsigned arithmetic:
from 1940 on it is `max (year / 5 - 388) 12` over the integers, below 1940 it is the
wrapped value `2^32 - (388 - year / 5)`, and for the year 0 it is 4294966908. -/
theorem strength_divisor_spec (year : Nat) (hy : year < UINT_MOD) :
    (1940 ≤ year → (strength_divisor year : Int) = Max.max ((year : Int) / 5 - 388) 12) ∧
    (year < 1940 → strength_divisor year = 2 ^ 32 - (388 - year / 5) ∧
      12 < strength_divisor year) ∧
    strength_divisor 0 = 4294966908 := by
  refine ⟨fun h => ?_, fun h => ?_, by decide⟩
  · rw [strength_divisor_of_ge year hy h]
    simp only [UINT_MOD] at hy
    simp only [Nat.max_def]
    split <;> omega
  · rw [strength_divisor_of_lt year h]
    exact ⟨rfl, by omega⟩

/-- C16 (configured alphabet size).  The `alphabet_size` that `get_password_strength`
computes from `flags` is the sum of the lengths of the alphabets of the requested
categories (26, 26, 10 and 17 symbols); it is the length of the output alphabet that
`generate_password` builds for the same `flags`. -/
theorem strength_alphabet_size_spec (flags : Nat) :
    strength_alphabet_size flags =
      (if flag_set flags FLAG_LOW_AVAIL then OUTPUT_LOW.length else 0) +
      (if flag_set flags FLAG_UPP_AVAIL then OUTPUT_UPP.length else 0) +
      (if flag_set flags FLAG_DIG_AVAIL then OUTPUT_DIG.length else 0) +
      (if flag_set flags FLAG_SYM_AVAIL then OUTPUT_SYM.length else 0) ∧
    (OUTPUT_LOW.length = 26 ∧ OUTPUT_UPP.length = 26 ∧ OUTPUT_DIG.length = 10 ∧
      OUTPUT_SYM.length = 17) ∧
    strength_alphabet_size flags = strlen (build_output_domain flags) ∧
    strength_alphabet_size flags = (spec_alphabet flags).length := by
  have h1 := strength_alphabet_size_bits flags
  obtain ⟨_, h2, h3⟩ := build_output_domain_bits _ _ _ _ flags rfl rfl rfl rfl
  have h4 : (spec_alphabet flags).length = strlen (build_output_domain flags) := by
    rw [← h2]; rfl
  refine ⟨?_, ⟨rfl, rfl, rfl, rfl⟩, by rw [h1, h3], by rw [h4, h1, h3]⟩
  rw [h1]
  simp only [OUTPUT_LOW, OUTPUT_UPP, OUTPUT_DIG, OUTPUT_SYM, List.length_cons, List.length_nil]
  split <;> split <;> split <;> split <;> rfl

theorem compute_output_length_sample_years :
    compute_output_length 0 sample_year = 16 ∧ compute_output_length 0 sample_year_2020 = 16 := by
  decide

theorem has_category_all : has_category 15 := ⟨Category.Lower, by decide⟩

/-- C17 (concrete scenario).  For the secret `"correct horse"`, the domain
`"example.com"`, the year `"2024"`, no fixed size and all four categories, for every
choice of the constants the returned password has length 16, which is
`max 12 (min 256 (12 + 24 / 5))`, and each of its symbols is one of the 79 symbols of
the alphabet. -/
theorem generate_password_concrete_scenario (cfg : Config) :
    ∃ out, generate_password cfg sample_secret sample_domain sample_year 0 15 = some out ∧
      strlen out.new_passwd = 16 ∧
      Nat.max 12 (Nat.min 256 (12 + 24 / 5)) = 16 ∧
      (∀ b, b ∈ cstr out.new_passwd → b ∈ spec_alphabet 15) ∧
      (spec_alphabet 15).length = 79 := by
  obtain ⟨out, ho, hlen, hsym⟩ := generate_password_strlen cfg sample_secret sample_domain
    sample_year 0 15 has_category_all (by decide)
  rw [compute_output_length_sample_years.1] at hlen
  exact ⟨out, ho, hlen, by decide, hsym, by decide⟩

/-- C18, refuted as stated: for the year `"2020"` (no fixed size, all four
categories) the generated password has 16 symbols, not 15. -/
theorem generate_password_size_2020 :
    ∃ out, generate_password sample_config sample_secret sample_domain sample_year_2020 0 15
        = some out ∧
      strlen out.new_passwd = 16 ∧ strlen out.new_passwd ≠ 15 := by
  obtain ⟨out, ho, hlen, _⟩ := generate_password_strlen sample_config sample_secret
    sample_domain sample_year_2020 0 15 has_category_all (by decide)
  rw [compute_output_length_sample_years.2] at hlen
  exact ⟨out, ho, hlen, by rw [hlen]; decide⟩

/-- C18, amended: when the length is not fixed, the size of the generated password
is 12 for years before 2000, 12 for 2000-2004, 13 for 2005-2009, 14 for 2010-2014 and
15 for 2015-2019; for 2020 it is 16. -/
theorem generate_password_size_table (cfg : Config) (password domain year : List Byte)
    (flags : Nat) (hc : has_category flags) (hfit : InRange password domain year 0 flags) :
    ∃ out, generate_password cfg password domain year 0 flags = some out ∧
      (atoi year < 2000 → strlen out.new_passwd = 12) ∧
      (2000 ≤ atoi year → atoi year ≤ 2004 → strlen out.new_passwd = 12) ∧
      (2005 ≤ atoi year → atoi year ≤ 2009 → strlen out.new_passwd = 13) ∧
      (2010 ≤ atoi year → atoi year ≤ 2014 → strlen out.new_passwd = 14) ∧
      (2015 ≤ atoi year → atoi year ≤ 2019 → strlen out.new_passwd = 15) ∧
      (atoi year = 2020 → strlen out.new_passwd = 16) := by
  obtain ⟨out, ho, hlen, _⟩ := generate_password_strlen cfg password domain year 0 flags hc hfit
  rw [compute_output_length_year] at hlen
  refine ⟨out, ho, ?_, ?_, ?_, ?_, ?_, ?_⟩ <;> intros <;> rw [hlen] <;>
    simp only [Nat.max_def, Nat.min_def] <;> split <;> (try split) <;> (try split) <;> omega

/-- C20 (fixed-width arithmetic).  Where the bytes of the string are all below 128,
or plain `char` is unsigned, the accumulator update as C evaluates it (32-bit
products and first sum, 64-bit cross term and further sums, `% 65536`, store in a
`uint16_t`) equals `(acc + b[cur] * forward + pos * cur * cross
+ b[len - 1 - cur] * reverse) mod 65536` over the unbounded integers, for any three
multipliers, so for each of the three channels; the value is below 65536, and so is
every accumulator at the end of the loop. -/
theorem mix_step_fixed_width (cfg : Config) (hash : Nat) (s : List Byte)
    (len seek output_seek : Nat) (mul seek_mul inv_mul : Nat)
    (h : cfg.char_signed = false ∨ ∀ b ∈ s, b.val < 128) :
    mix_step cfg hash s len seek output_seek mul seek_mul inv_mul =
      (hash + (s.getD seek 0).val * mul + output_seek * seek * seek_mul
        + (s.getD (len - 1 - seek) 0).val * inv_mul) % 65536 ∧
    mix_step cfg hash s len seek output_seek mul seek_mul inv_mul < 65536 ∧
    ∀ (e : Env) (fuel : Nat) (r : LoopState), mix_loop e fuel (initial_state e) = some r →
      ∀ x ∈ r.password_hash, x < 65536 := by
  refine ⟨?_, mix_step_lt _ _ _ _ _ _ _ _ _,
    fun e fuel r hr => (mix_loop_password_hash e fuel r hr).2⟩
  have hconv : ∀ i, char_to_uint cfg (s.getD i 0) = (s.getD i 0).val := by
    intro i
    rcases h with h | h
    · exact char_to_uint_of_unsigned cfg _ h
    · exact char_to_uint_of_lt cfg _ (getD_val_lt_of_forall s i h)
  rw [mix_step_eq_spec cfg hash s len seek output_seek mul seek_mul inv_mul (hconv _) (hconv _)]
  rfl

/-! ### The claims at concrete inputs, continued -/

theorem get_password_strength_empty_witness :
    strlen ([0, 97] : List Byte) = 0 ∧
    get_password_strength sample_config [0, 97] 2024 15 = 0.0 :=
  ⟨by decide, (get_password_strength_empty sample_config [0, 97] 2024 15 (by decide)).1⟩

theorem strength_divisor_spec_witness :
    (2024 < UINT_MOD ∧ 1940 ≤ 2024 ∧ 1900 < UINT_MOD ∧ 1900 < 1940) ∧
    (strength_divisor 2024 : Int) = Max.max (((2024 : Nat) : Int) / 5 - 388) 12 ∧
    (strength_divisor 1900 = 2 ^ 32 - (388 - 1900 / 5) ∧ 12 < strength_divisor 1900) :=
  ⟨⟨by decide, by decide, by decide, by decide⟩,
   (strength_divisor_spec 2024 (by decide)).1 (by decide),
   (strength_divisor_spec 1900 (by decide)).2.1 (by decide)⟩

theorem generate_password_size_table_witness :
    (has_category 15 ∧ InRange sample_secret sample_domain sample_year_2020 0 15 ∧
      atoi sample_year_2020 = 2020) ∧
    ∃ out, generate_password sample_config sample_secret sample_domain sample_year_2020 0 15
        = some out ∧ strlen out.new_passwd = 16 :=
  ⟨⟨⟨Category.Digit, by decide⟩, by decide, by decide⟩,
   (generate_password_size_table sample_config sample_secret sample_domain sample_year_2020
     15 ⟨Category.Digit, by decide⟩ (by decide)).imp
     (fun _ h => ⟨h.1, h.2.2.2.2.2.2 (by decide)⟩)⟩

set_option maxRecDepth 100000 in
theorem sample_secret_ascii : ∀ b ∈ sample_secret, b.val < 128 := by decide

theorem mix_step_fixed_width_witness :
    (sample_config.char_signed = false ∨ ∀ b ∈ sample_secret, b.val < 128) ∧
    mix_step sample_config 65535 sample_secret 13 3 7 sample_config.PW_MUL
        sample_config.PW_SEEK_MUL sample_config.PW_INV_MUL =
      (65535 + (sample_secret.getD 3 0).val * sample_config.PW_MUL
        + 7 * 3 * sample_config.PW_SEEK_MUL
        + (sample_secret.getD (13 - 1 - 3) 0).val * sample_config.PW_INV_MUL) % 65536 :=
  ⟨Or.inr sample_secret_ascii,
   (mix_step_fixed_width sample_config 65535 sample_secret 13 3 7 sample_config.PW_MUL
     sample_config.PW_SEEK_MUL sample_config.PW_INV_MUL (Or.inr sample_secret_ascii)).1⟩

/-! ### The states of the loop -/

/-- The final state of the loop is a state of the loop. -/
theorem reachable_of_mix_loop (e : Env) (fuel : Nat) (r : LoopState)
    (hr : mix_loop e fuel (initial_state e) = some r) :
    Reachable e r ∧ ¬ r.iteration < r.limit :=
  mix_loop_invariant e (Reachable e) (fun st h hlt => Reachable.step st h hlt) fuel _ r
    Reachable.init hr

theorem cursor_lt (seek length : Nat) (h : 0 < length) : cursor seek length < length := by
  simp only [cursor]; split <;> omega

theorem cursor_zero (seek : Nat) : cursor seek 0 = 0 := by
  simp [cursor]

/-- Stepping a cursor: `(n + 1) mod length`. -/
theorem cursor_succ (n length : Nat) (h : 0 < length) :
    cursor (n % length + 1) length = (n + 1) % length := by
  have hlt := Nat.mod_lt n h
  simp only [cursor]
  rcases Nat.lt_or_ge (n % length + 1) length with h1 | h1
  · rw [if_neg (by omega)]
    rw [Nat.add_mod]
    rcases Nat.lt_or_ge 1 length with h2 | h2
    · rw [Nat.mod_eq_of_lt h2, Nat.mod_eq_of_lt h1]
    · omega
  · rw [if_pos h1]
    have heq : n % length + 1 = length := by omega
    have : (n + 1) % length = (n % length + 1) % length := by
      rw [Nat.add_mod]
      rcases Nat.lt_or_ge 1 length with h2 | h2
      · rw [Nat.mod_eq_of_lt h2]
      · have : length = 1 := by omega
        subst this; simp
    rw [this, heq, Nat.mod_self]

/-- The fields of the state after an iteration, by the parts of the body. -/
theorem loop_body_fields (e : Env) (st : LoopState) :
    (loop_body e st).pwd_seek = cursor st.pwd_seek e.password_length + 1 ∧
    (loop_body e st).domain_seek = cursor st.domain_seek e.domain_length + 1 ∧
    (loop_body e st).year_seek = cursor st.year_seek e.year_length + 1 ∧
    (loop_body e st).output_seek = cursor st.output_seek e.output_length + 1 ∧
    (loop_body e st).password_hash =
      channel_step e.cfg
        (channel_step e.cfg
          (channel_step e.cfg st.password_hash e.password e.password_length
            (cursor st.pwd_seek e.password_length) (cursor st.output_seek e.output_length)
            e.cfg.PW_MUL e.cfg.PW_SEEK_MUL e.cfg.PW_INV_MUL)
          e.domain e.domain_length
          (cursor st.domain_seek e.domain_length) (cursor st.output_seek e.output_length)
          e.cfg.DOM_MUL e.cfg.DOM_SEEK_MUL e.cfg.DOM_INV_MUL)
        e.year e.year_length
        (cursor st.year_seek e.year_length) (cursor st.output_seek e.output_length)
        e.cfg.YR_MUL e.cfg.YR_SEEK_MUL e.cfg.YR_INV_MUL ∧
    (loop_body e st).new_passwd =
      st.new_passwd.set (cursor st.output_seek e.output_length)
        (e.output_domain.getD
          ((loop_body e st).password_hash.getD (cursor st.output_seek e.output_length) 0
            % e.output_domain_size) 0) :=
  ⟨rfl, rfl, rfl, rfl, rfl, rfl⟩

theorem getD_set_self {α : Type} (l : List α) (i : Nat) (a d : α) (h : i < l.length) :
    (l.set i a).getD i d = a := by
  rw [List.getD_eq_getElem?_getD, List.getElem?_set_self h]; rfl

theorem getD_set_ne {α : Type} (l : List α) (i j : Nat) (a d : α) (h : i ≠ j) :
    (l.set i a).getD j d = l.getD j d := by
  rw [List.getD_eq_getElem?_getD, List.getElem?_set_ne h, ← List.getD_eq_getElem?_getD]

theorem channel_step_length (cfg : Config) (hash : List Nat) (s : List Byte)
    (len seek output_seek mul seek_mul inv_mul : Nat) :
    (channel_step cfg hash s len seek output_seek mul seek_mul inv_mul).length
      = hash.length := by
  simp only [channel_step]; split
  · exact List.length_set _ _ _
  · rfl

theorem channel_step_getD_ne (cfg : Config) (hash : List Nat) (s : List Byte)
    (len seek output_seek mul seek_mul inv_mul p : Nat) (h : output_seek ≠ p) :
    (channel_step cfg hash s len seek output_seek mul seek_mul inv_mul).getD p 0
      = hash.getD p 0 := by
  simp only [channel_step]; split
  · exact getD_set_ne _ _ _ _ _ h
  · rfl

/-- A guarded update adds the contribution of its input, modulo 65536. -/
theorem channel_step_getD_self (cfg : Config) (hash : List Nat) (s : List Byte)
    (len seek mul seek_mul inv_mul output_length i : Nat)
    (hseek : 0 < len → seek = i % len)
    (hpos : i % output_length < hash.length)
    (hlt : hash.getD (i % output_length) 0 < 65536) :
    (channel_step cfg hash s len seek (i % output_length) mul seek_mul inv_mul).getD
        (i % output_length) 0
      = (hash.getD (i % output_length) 0
          + channel_contribution cfg s len mul seek_mul inv_mul output_length i) % 65536 := by
  simp only [channel_step, channel_contribution]
  rcases Nat.eq_zero_or_pos len with h0 | h0
  · subst h0
    simp only [ne_eq, not_true_eq_false, if_false, if_true, Nat.add_zero]
    exact (Nat.mod_eq_of_lt hlt).symm
  · rw [if_pos (by omega), if_neg (by omega), getD_set_self _ _ _ _ hpos, mix_step_mod,
      hseek h0]
    have hsub : len - i % len - 1 = len - 1 - i % len := by omega
    rw [hsub]
    congr 1
    omega

theorem accumulated_zero (e : Env) (p : Nat) : accumulated e p 0 = 0 := rfl

theorem accumulated_succ (e : Env) (p n : Nat) :
    accumulated e p (n + 1) =
      accumulated e p n + (if n % e.output_length = p then iteration_contribution e n else 0) := by
  simp only [accumulated, List.range_succ, List.filter_append, List.map_append, List.sum_append]
  congr 1
  by_cases h : n % e.output_length = p
  · simp [h]
  · simp [h]

theorem stateInv_initial (e : Env) : StateInv e (initial_state e) where
  hash_len := by simp [initial_state]
  pass_len := by simp [initial_state]
  pwd_cursor := by intro _; simp [initial_state, cursor]
  domain_cursor := by intro _; simp [initial_state, cursor]
  year_cursor := by intro _; simp [initial_state, cursor]
  output_cursor := by simp [initial_state, cursor]
  closed := by
    intro p _
    simp only [initial_state, accumulated_zero, Nat.zero_mod, List.getD_eq_getElem?_getD,
      List.getElem?_replicate]
    split <;> rfl
  follows := by intro p _ h; simp [initial_state] at h

/-- The accumulator array after an iteration, position by position. -/
theorem loop_body_hash_getD (e : Env) (st : LoopState) (hI : StateInv e st) (p : Nat)
    (hp : p < e.output_length) :
    (loop_body e st).password_hash.getD p 0 =
      if st.iteration % e.output_length = p then
        (st.password_hash.getD p 0 + iteration_contribution e st.iteration) % 65536
      else st.password_hash.getD p 0 := by
  rw [(loop_body_fields e st).2.2.2.2.1, hI.output_cursor]
  by_cases h : st.iteration % e.output_length = p
  · rw [if_pos h]
    have hlt0 : st.password_hash.getD (st.iteration % e.output_length) 0 < 65536 := by
      rw [h, hI.closed p hp]; exact Nat.mod_lt _ (by norm_num)
    have hpos0 : st.iteration % e.output_length < st.password_hash.length := by
      rw [h, hI.hash_len]; exact hp
    have h1 := channel_step_getD_self e.cfg st.password_hash e.password e.password_length
      (cursor st.pwd_seek e.password_length) e.cfg.PW_MUL e.cfg.PW_SEEK_MUL e.cfg.PW_INV_MUL
      e.output_length st.iteration hI.pwd_cursor hpos0 hlt0
    have h2 := channel_step_getD_self e.cfg
      (channel_step e.cfg st.password_hash e.password e.password_length
        (cursor st.pwd_seek e.password_length) (st.iteration % e.output_length)
        e.cfg.PW_MUL e.cfg.PW_SEEK_MUL e.cfg.PW_INV_MUL)
      e.domain e.domain_length
      (cursor st.domain_seek e.domain_length) e.cfg.DOM_MUL e.cfg.DOM_SEEK_MUL
      e.cfg.DOM_INV_MUL e.output_length st.iteration hI.domain_cursor
      (by rw [channel_step_length]; exact hpos0)
      (by rw [h1]; exact Nat.mod_lt _ (by norm_num))
    have h3 := channel_step_getD_self e.cfg
      (channel_step e.cfg
        (channel_step e.cfg st.password_hash e.password e.password_length
        (cursor st.pwd_seek e.password_length) (st.iteration % e.output_length)
        e.cfg.PW_MUL e.cfg.PW_SEEK_MUL e.cfg.PW_INV_MUL)
        e.domain e.domain_length
        (cursor st.domain_seek e.domain_length) (st.iteration % e.output_length)
        e.cfg.DOM_MUL e.cfg.DOM_SEEK_MUL e.cfg.DOM_INV_MUL)
      e.year e.year_length
      (cursor st.year_seek e.year_length) e.cfg.YR_MUL e.cfg.YR_SEEK_MUL
      e.cfg.YR_INV_MUL e.output_length st.iteration hI.year_cursor
      (by rw [channel_step_length, channel_step_length]; exact hpos0)
      (by rw [h2]; exact Nat.mod_lt _ (by norm_num))
    rw [← h, h3, h2, h1]
    simp only [iteration_contribution]
    omega
  · rw [if_neg h, channel_step_getD_ne _ _ _ _ _ _ _ _ _ _ h,
      channel_step_getD_ne _ _ _ _ _ _ _ _ _ _ h, channel_step_getD_ne _ _ _ _ _ _ _ _ _ _ h]

/-- The body of the loop keeps `StateInv`. -/
theorem stateInv_step (e : Env) (hpos : 0 < e.output_length) (st : LoopState)
    (hI : StateInv e st) : StateInv e (loop_body e st) := by
  obtain ⟨f1, f2, f3, f4, f5, f6⟩ := loop_body_fields e st
  have hos : cursor st.output_seek e.output_length < e.output_length := cursor_lt _ _ hpos
  refine ⟨?_, ?_, ?_, ?_, ?_, ?_, ?_, ?_⟩
  · rw [f5, channel_step_length, channel_step_length, channel_step_length]; exact hI.hash_len
  · rw [f6, List.length_set]; exact hI.pass_len
  · intro h
    rw [f1, hI.pwd_cursor h, loop_body_iteration]; exact cursor_succ _ _ h
  · intro h
    rw [f2, hI.domain_cursor h, loop_body_iteration]; exact cursor_succ _ _ h
  · intro h
    rw [f3, hI.year_cursor h, loop_body_iteration]; exact cursor_succ _ _ h
  · rw [f4, hI.output_cursor, loop_body_iteration]; exact cursor_succ _ _ hpos
  · intro p hp
    rw [loop_body_hash_getD e st hI p hp, loop_body_iteration, accumulated_succ, hI.closed p hp]
    split
    · omega
    · rw [Nat.add_zero]
  · intro p hp hlt
    rw [loop_body_iteration] at hlt
    rw [f6]
    by_cases h : cursor st.output_seek e.output_length = p
    · rw [h, getD_set_self _ _ _ _ (by rw [hI.pass_len]; omega)]
    · rw [getD_set_ne _ _ _ _ _ h]
      have hne : st.iteration % e.output_length ≠ p := by rw [← hI.output_cursor]; exact h
      have hlt2 : p < st.iteration := by
        rcases Nat.lt_or_ge p st.iteration with h1 | h1
        · exact h1
        · exfalso
          have : p = st.iteration := by omega
          rw [this] at hp hne
          exact hne (Nat.mod_eq_of_lt hp)
      rw [hI.follows p hp hlt2, loop_body_hash_getD e st hI p hp, if_neg hne]

/-- Every state of the loop satisfies `StateInv`. -/
theorem stateInv_of_reachable (e : Env) (hpos : 0 < e.output_length) (st : LoopState)
    (h : Reachable e st) : StateInv e st := by
  induction h with
  | init => exact stateInv_initial e
  | step st _ _ ih => exact stateInv_step e hpos st ih

/-- Where the symbol domain is empty the limit is 0 in every state of the loop. -/
theorem reachable_limit_zero (e : Env) (h0 : e.output_domain_size = 0) (st : LoopState)
    (h : Reachable e st) : st.limit = 0 := by
  induction h with
  | init => simp [initial_state, initial_limit, h0]
  | step st _ hlt ih => rw [ih] at hlt; exact absurd hlt (Nat.not_lt_zero _)

theorem strlen_le_length (buf : List Byte) : strlen buf ≤ buf.length := by
  induction buf with
  | nil => exact Nat.le_refl _
  | cons b l ih =>
    by_cases hb : b = 0
    · subst hb; simp [strlen, cstr_cons_zero]
    · simp only [strlen, cstr_cons_ne b l hb, List.length_cons]
      simp only [strlen] at ih; omega

set_option maxRecDepth 100000 in
/-- The symbol domain is the result of the `strncpy` calls on the zeroed buffer, and
each call writes inside the 256 bytes of the buffer. -/
theorem strncpy_calls_bits (low dig sym upp : Bool) :
    ∀ flags, flag_set flags FLAG_LOW_AVAIL = low → flag_set flags FLAG_DIG_AVAIL = dig →
      flag_set flags FLAG_SYM_AVAIL = sym → flag_set flags FLAG_UPP_AVAIL = upp →
      build_output_domain flags =
        (strncpy_calls flags).foldl (fun buf c => strncpy buf c.1 c.2.1 c.2.2)
          (memset_zero (List.replicate OUTPUT_DOMAIN_MAXLENGTH 0) OUTPUT_DOMAIN_MAXLENGTH) ∧
      (∀ c ∈ strncpy_calls flags, c.1 + c.2.2 ≤ OUTPUT_DOMAIN_MAXLENGTH ∧
        strlen c.2.1 ≤ c.2.2) ∧
      (strncpy_calls flags).length =
        (if low then 1 else 0) + (if dig then 1 else 0) + (if sym then 1 else 0)
          + (if upp then 1 else 0) := by
  intro flags h1 h2 h3 h4
  simp only [build_output_domain, strncpy_calls, h1, h2, h3, h4]
  cases low <;> cases dig <;> cases sym <;> cases upp <;> exact ⟨rfl, by decide, rfl⟩

theorem no_category_iff (flags : Nat) :
    ¬ has_category flags ↔
      (flag_set flags FLAG_LOW_AVAIL = false ∧ flag_set flags FLAG_DIG_AVAIL = false ∧
        flag_set flags FLAG_SYM_AVAIL = false ∧ flag_set flags FLAG_UPP_AVAIL = false) := by
  constructor
  · intro h
    refine ⟨?_, ?_, ?_, ?_⟩
    · cases hb : flag_set flags FLAG_LOW_AVAIL with
      | false => rfl
      | true => exact absurd ⟨Category.Lower, hb⟩ h
    · cases hb : flag_set flags FLAG_DIG_AVAIL with
      | false => rfl
      | true => exact absurd ⟨Category.Digit, hb⟩ h
    · cases hb : flag_set flags FLAG_SYM_AVAIL with
      | false => rfl
      | true => exact absurd ⟨Category.Symbol, hb⟩ h
    · cases hb : flag_set flags FLAG_UPP_AVAIL with
      | false => rfl
      | true => exact absurd ⟨Category.Upper, hb⟩ h
  · rintro ⟨h1, h2, h3, h4⟩ ⟨c, hc⟩
    cases c <;> simp only [requested, Category.flag] at hc <;> simp_all

/-- Without a category the symbol domain is empty and the initial limit is 0. -/
theorem no_category_limit (cfg : Config) (password domain year : List Byte)
    (fixed_size flags : Nat) (h : ¬ has_category flags) :
    strlen (build_output_domain flags) = 0 ∧
      initial_limit (make_env cfg password domain year fixed_size flags) = 0 := by
  obtain ⟨h1, h2, h3, h4⟩ := (no_category_iff flags).1 h
  have h0 : strlen (build_output_domain flags) = 0 := by
    rw [(build_output_domain_bits _ _ _ _ flags rfl rfl rfl rfl).2.2, h1, h2, h3, h4]; rfl
  refine ⟨h0, ?_⟩
  simp only [initial_limit, make_env, h0, Nat.zero_mul, Nat.zero_mod]

/-! ## The claims, the behaviour of the loop -/

/-- C21 (initial iteration budget).  With at least one category requested, the
initial limit is `alphabet_length * (secret_length + domain_length + year_length
+ output_length + flags)`, `flags` being the value of the flags word; it exceeds
`output_length`, so that the loop runs at least `output_length` iterations, visits
every output position and leaves no zero byte in it. -/
theorem initial_limit_spec (cfg : Config) (password domain year : List Byte)
    (fixed_size flags : Nat) (hc : has_category flags)
    (hfit : InRange password domain year fixed_size flags) :
    initial_limit (make_env cfg password domain year fixed_size flags) =
      (spec_alphabet flags).length *
        (strlen password + strlen domain + strlen year
          + compute_output_length fixed_size year + flags) ∧
    compute_output_length fixed_size year < initial_limit (make_env cfg password domain year fixed_size flags) ∧
    ∃ out, generate_password cfg password domain year fixed_size flags = some out ∧
      initial_limit (make_env cfg password domain year fixed_size flags) ≤ out.iteration ∧
      ∀ p, p < compute_output_length fixed_size year →
        (∃ i, i < out.iteration ∧ i % compute_output_length fixed_size year = p) ∧
        out.new_passwd.getD p 0 ≠ 0 := by
  have hlt := output_length_lt_initial_limit cfg password domain year fixed_size flags hc hfit
  refine ⟨?_, hlt, ?_⟩
  · rw [initial_limit_exact cfg password domain year fixed_size flags hfit,
      ← cstr_build_output_domain flags]
    rfl
  · obtain ⟨out, ho, hsym, _, _, hge, _⟩ :=
      generate_password_buffer cfg password domain year fixed_size flags hc hfit
    refine ⟨out, ho, hge, fun p hp => ⟨⟨p, by omega, Nat.mod_eq_of_lt hp⟩, ?_⟩⟩
    have := hsym p hp
    rw [← cstr_build_output_domain flags] at this
    exact ne_zero_of_mem_cstr _ _ this

/-- C22 (closed form of the mixing state).  In every state of the loop of a call,
with `i` the number of iterations done, the cursors that the next iteration uses are
`i mod secret_length`, `i mod domain_length`, `i mod year_length` (for the inputs that
are not empty) and `i mod output_length`, and the accumulator at every position `p`
is, modulo 65536, the sum over the iterations `j < i` with `j mod output_length = p`
of the secret, domain and year contributions of iteration `j`, an empty input
contributing nothing. -/
theorem mixing_state_closed_form (cfg : Config) (password domain year : List Byte)
    (fixed_size flags : Nat) (st : LoopState)
    (h : Reachable (make_env cfg password domain year fixed_size flags) st) :
    (0 < strlen password →
      cursor st.pwd_seek (strlen password) = st.iteration % strlen password) ∧
    (0 < strlen domain →
      cursor st.domain_seek (strlen domain) = st.iteration % strlen domain) ∧
    (0 < strlen year →
      cursor st.year_seek (strlen year) = st.iteration % strlen year) ∧
    cursor st.output_seek (compute_output_length fixed_size year) =
      st.iteration % compute_output_length fixed_size year ∧
    ∀ p, p < compute_output_length fixed_size year →
      st.password_hash.getD p 0 =
        (((List.range st.iteration).filter
            (fun j => j % compute_output_length fixed_size year = p)).map
          (iteration_contribution (make_env cfg password domain year fixed_size flags))).sum
          % 65536 := by
  have hI := stateInv_of_reachable _ (compute_output_length_pos fixed_size year) st h
  exact ⟨hI.pwd_cursor, hI.domain_cursor, hI.year_cursor, hI.output_cursor, hI.closed⟩

/-- C24 (the output follows the accumulators).  In every state of the loop of a
call, at every output position `p` that an iteration has visited, the byte of the
output buffer is `output_domain[password_hash[p] % output_domain_size]`; this holds in
particular of the final state, whose buffer the call returns. -/
theorem output_follows_accumulators (cfg : Config) (password domain year : List Byte)
    (fixed_size flags : Nat) (st : LoopState)
    (h : Reachable (make_env cfg password domain year fixed_size flags) st) :
    (∀ p, (∃ i, i < st.iteration ∧ i % compute_output_length fixed_size year = p) →
      st.new_passwd.getD p 0 =
        (build_output_domain flags).getD
          (st.password_hash.getD p 0 % strlen (build_output_domain flags)) 0) ∧
    (flags ≠ 0 →
      ∃ r out, Reachable (make_env cfg password domain year fixed_size flags) r ∧
        ¬ r.iteration < r.limit ∧
        generate_password cfg password domain year fixed_size flags = some out ∧
        out.new_passwd = r.new_passwd ∧
        ∀ p, (∃ i, i < r.iteration ∧ i % compute_output_length fixed_size year = p) →
          out.new_passwd.getD p 0 =
            (build_output_domain flags).getD
              (r.password_hash.getD p 0 % strlen (build_output_domain flags)) 0) := by
  have hpos := compute_output_length_pos fixed_size year
  have key : ∀ s : LoopState, Reachable (make_env cfg password domain year fixed_size flags) s →
      ∀ p, (∃ i, i < s.iteration ∧ i % compute_output_length fixed_size year = p) →
        s.new_passwd.getD p 0 =
          (build_output_domain flags).getD
            (s.password_hash.getD p 0 % strlen (build_output_domain flags)) 0 := by
    intro s hs p ⟨i, hi, hip⟩
    have hI := stateInv_of_reachable _ hpos s hs
    have hp : p < compute_output_length fixed_size year := by rw [← hip]; exact Nat.mod_lt _ hpos
    have hle : p ≤ i := by rw [← hip]; exact Nat.mod_le _ _
    exact hI.follows p hp (by omega)
  refine ⟨key st h, fun hf => ?_⟩
  obtain ⟨r, hr, _, _⟩ := run_returns (make_env cfg password domain year fixed_size flags)
  obtain ⟨hreach, hexit⟩ := reachable_of_mix_loop _ _ r hr
  obtain ⟨out, ho, hp, _⟩ := generate_password_of_run cfg password domain year fixed_size
    flags hf r hr
  exact ⟨r, out, hreach, hexit, ho, hp, fun p hv => by rw [hp]; exact key r hreach p hv⟩

/-- C25 (no out-of-range access, no division by zero).  In every state of the loop
of a call in which the body runs (`iteration < limit`): each cursor of a non-empty
input and its reverse index are below the length of the input, the output position
is below `output_length` and inside both arrays, the modulus `output_domain_size` is
not zero and the index into `output_domain` is below it and inside the buffer.
Without any of the four category bits the domain is empty and the initial limit is
0.  Each `strncpy` call that builds the domain writes inside the 256 bytes. -/
theorem generate_password_memory_safe (cfg : Config) (password domain year : List Byte)
    (fixed_size flags : Nat) (st : LoopState)
    (h : Reachable (make_env cfg password domain year fixed_size flags) st)
    (hrun : st.iteration < st.limit) :
    (strlen password ≠ 0 →
      cursor st.pwd_seek (strlen password) < strlen password ∧
      strlen password - cursor st.pwd_seek (strlen password) - 1 < strlen password) ∧
    (strlen domain ≠ 0 →
      cursor st.domain_seek (strlen domain) < strlen domain ∧
      strlen domain - cursor st.domain_seek (strlen domain) - 1 < strlen domain) ∧
    (strlen year ≠ 0 →
      cursor st.year_seek (strlen year) < strlen year ∧
      strlen year - cursor st.year_seek (strlen year) - 1 < strlen year) ∧
    (cursor st.output_seek (compute_output_length fixed_size year)
        < compute_output_length fixed_size year ∧
      cursor st.output_seek (compute_output_length fixed_size year)
        < st.password_hash.length ∧
      cursor st.output_seek (compute_output_length fixed_size year) + 1
        < st.new_passwd.length) ∧
    (strlen (build_output_domain flags) ≠ 0 ∧
      (∀ acc : Nat, acc % strlen (build_output_domain flags)
        < strlen (build_output_domain flags)) ∧
      strlen (build_output_domain flags) ≤ (build_output_domain flags).length) ∧
    (¬ has_category flags →
      strlen (build_output_domain flags) = 0 ∧
      initial_limit (make_env cfg password domain year fixed_size flags) = 0) ∧
    (∀ c ∈ strncpy_calls flags, c.1 + c.2.2 ≤ OUTPUT_DOMAIN_MAXLENGTH) ∧
    build_output_domain flags =
      (strncpy_calls flags).foldl (fun buf c => strncpy buf c.1 c.2.1 c.2.2)
        (memset_zero (List.replicate OUTPUT_DOMAIN_MAXLENGTH 0) OUTPUT_DOMAIN_MAXLENGTH) := by
  have hpos := compute_output_length_pos fixed_size year
  have hI := stateInv_of_reachable _ hpos st h
  have hsize : strlen (build_output_domain flags) ≠ 0 := by
    intro h0
    have := reachable_limit_zero (make_env cfg password domain year fixed_size flags) h0 st h
    omega
  obtain ⟨hb1, hb2, _⟩ := strncpy_calls_bits _ _ _ _ flags rfl rfl rfl rfl
  have hcur : ∀ seek len : Nat, len ≠ 0 → cursor seek len < len ∧ len - cursor seek len - 1 < len :=
    fun seek len hl => ⟨cursor_lt _ _ (by omega), by omega⟩
  have hos := cursor_lt st.output_seek _ hpos
  refine ⟨hcur _ _, hcur _ _, hcur _ _, ⟨hos, ?_, ?_⟩,
    ⟨hsize, fun acc => Nat.mod_lt _ (by omega), strlen_le_length _⟩,
    no_category_limit cfg password domain year fixed_size flags,
    fun c hc => (hb2 c hc).1, hb1⟩
  · rw [hI.hash_len]; exact hos
  · rw [hI.pass_len]; exact Nat.succ_lt_succ hos

/-! ### The retry rule and the plain loop -/

theorem plain_run_succ (e : Env) (n : Nat) :
    plain_run e (n + 1) = plain_body e (plain_run e n) :=
  Function.iterate_succ_apply' _ _ _

/-- The body of the loop does to the state what the plain body does, but for the
limit. -/
theorem agree_step (e : Env) (st : LoopState)
    (h : st = { plain_run e st.iteration with limit := st.limit }) :
    loop_body e st =
      { plain_run e (loop_body e st).iteration with limit := (loop_body e st).limit } := by
  rw [loop_body_iteration, plain_run_succ]
  generalize plain_run e st.iteration = P at h
  obtain ⟨a, b, c, d, it, lim, hash, pw⟩ := st
  simp only [LoopState.mk.injEq] at h
  obtain ⟨h1, h2, h3, h4, h5, _, h7, h8⟩ := h
  subst h1 h2 h3 h4 h5 h7 h8
  rfl

theorem retryInv_initial (e : Env) (hpos : 0 < initial_limit e) :
    RetryInv e (initial_state e) where
  agree := rfl
  it_le := Nat.zero_le _
  high := fun _ => rfl
  low := fun _ => ⟨0, by
    simp only [Nat.zero_mul, Nat.add_zero]
    exact ⟨(Nat.min_eq_left (by
      show initial_limit e ≤ ITERATION_MAX
      omega)).symm, fun j hj => absurd hj (Nat.not_lt_zero _)⟩⟩
  stop := by
    intro h
    have h2 : (0 : Nat) = initial_limit e := h
    omega

/-- The body of the loop keeps `RetryInv`. -/
theorem retryInv_step (e : Env) (hL : 0 < e.output_length)
    (hw : e.output_length + ITERATION_MAX ≤ SIZE_MOD) (st : LoopState)
    (hI : RetryInv e st) (hlt : st.iteration < st.limit) : RetryInv e (loop_body e st) := by
  have hag := agree_step e st hI.agree
  have hnew : (loop_body e st).new_passwd = (plain_run e (st.iteration + 1)).new_passwd := by
    conv_lhs => rw [hag]
    rw [loop_body_iteration]
  have hlim := loop_body_limit e st
  by_cases hc : (st.iteration + 1 = st.limit ∧ st.limit < ITERATION_MAX) ∧
      check_password (loop_body e st).new_passwd e.flags = false
  · -- the limit is raised
    rw [if_pos hc] at hlim
    obtain ⟨⟨heq, hmax⟩, hchk⟩ := hc
    have hm : (st.limit + e.output_length) % SIZE_MOD = st.limit + e.output_length :=
      Nat.mod_eq_of_lt (by omega)
    rw [hm] at hlim
    have hlow : initial_limit e < ITERATION_MAX := by
      by_contra hn
      have := hI.high (by omega)
      omega
    obtain ⟨k, hk, hall⟩ := hI.low hlow
    have hk2 : st.limit = initial_limit e + k * e.output_length := by
      rw [hk] at hmax ⊢
      simp only [Nat.min_def] at hmax ⊢
      split at hmax
      · rw [if_pos (by assumption)]
      · omega
    have hnewlim : (loop_body e st).limit =
        Nat.min (initial_limit e + (k + 1) * e.output_length) ITERATION_MAX := by
      rw [hlim, Nat.succ_mul, hk2]
      simp only [Nat.min_def]
      split <;> split <;> omega
    have hgt : st.limit < (loop_body e st).limit := by
      rw [hlim]; split <;> omega
    refine ⟨hag, ?_, fun h => absurd hlow (by omega), fun _ => ⟨k + 1, hnewlim, ?_⟩, ?_⟩
    · rw [loop_body_iteration]; omega
    · intro j hj
      rcases Nat.lt_or_ge j k with h1 | h1
      · exact hall j h1
      · have hjk : j = k := by omega
        subst hjk
        rw [← hk2]
        refine ⟨hmax, ?_⟩
        rw [← heq, ← hnew]; exact hchk
    · intro h
      rw [loop_body_iteration] at h
      omega
  · -- the limit stays
    rw [if_neg hc] at hlim
    refine ⟨hag, ?_, fun h => by rw [hlim]; exact hI.high h,
      fun h => by rw [hlim]; exact hI.low h, ?_⟩
    · rw [loop_body_iteration, hlim]; omega
    · intro h hlow
      rw [loop_body_iteration, hlim] at h
      rw [hlim]
      obtain ⟨k, hk, _⟩ := hI.low hlow
      have hle : st.limit ≤ ITERATION_MAX := by rw [hk]; exact Nat.min_le_right _ _
      by_cases hm : st.limit < ITERATION_MAX
      · left
        cases hcp : check_password (loop_body e st).new_passwd e.flags with
        | true => rfl
        | false => exact absurd ⟨⟨h, hm⟩, hcp⟩ hc
      · right; omega

/-- C23 (the retry extension is a top-up).  With at least one category requested,
the returned buffer is the buffer of the plain mixing loop (no retry rule, zeroed
initial state) after exactly `N` iterations, `N` being the number of iterations of
the call: `N` is the initial limit if that is `ITERATION_MAX` or more; otherwise `N`
is the first value of the sequence `min (limit0 + k * L) ITERATION_MAX`,
`k = 0, 1, 2, ...` (`L` the output length), at which the buffer of the plain loop
passes `check_password` or which is `ITERATION_MAX`. -/
theorem retry_is_top_up (cfg : Config) (password domain year : List Byte)
    (fixed_size flags : Nat) (hc : has_category flags)
    (hfit : InRange password domain year fixed_size flags) :
    ∃ out N, generate_password cfg password domain year fixed_size flags = some out ∧
      out.iteration = N ∧
      out.new_passwd = (plain_run (make_env cfg password domain year fixed_size flags) N).new_passwd ∧
      (ITERATION_MAX ≤ initial_limit (make_env cfg password domain year fixed_size flags) → N = initial_limit (make_env cfg password domain year fixed_size flags)) ∧
      (initial_limit (make_env cfg password domain year fixed_size flags) < ITERATION_MAX →
        ∃ k, N = Nat.min (initial_limit (make_env cfg password domain year fixed_size flags) + k * compute_output_length fixed_size year)
              ITERATION_MAX ∧
          (check_password (plain_run (make_env cfg password domain year fixed_size flags) N).new_passwd flags = true ∨ N = ITERATION_MAX) ∧
          ∀ j, j < k →
            Nat.min (initial_limit (make_env cfg password domain year fixed_size flags) + j * compute_output_length fixed_size year)
              ITERATION_MAX < ITERATION_MAX ∧
            check_password
              (plain_run (make_env cfg password domain year fixed_size flags)
                (Nat.min (initial_limit (make_env cfg password domain year fixed_size flags) + j * compute_output_length fixed_size year)
                  ITERATION_MAX)).new_passwd flags = false) := by
  have he := envOK_make_env cfg password domain year fixed_size flags hc hfit
  have hpos : 0 < initial_limit (make_env cfg password domain year fixed_size flags) := by
    have := output_length_lt_initial_limit cfg password domain year fixed_size flags hc hfit
    omega
  obtain ⟨r, hr, _, _⟩ := run_returns (make_env cfg password domain year fixed_size flags)
  obtain ⟨hI, hexit⟩ := mix_loop_invariant (make_env cfg password domain year fixed_size flags) (RetryInv (make_env cfg password domain year fixed_size flags))
    (retryInv_step (make_env cfg password domain year fixed_size flags) he.length_pos he.no_wrap) _ _ r (retryInv_initial (make_env cfg password domain year fixed_size flags) hpos) hr
  obtain ⟨out, ho, hp, hi⟩ := generate_password_of_run cfg password domain year fixed_size
    flags (flags_ne_zero_of_has_category flags hc) r hr
  have hit : r.iteration = r.limit := by have := hI.it_le; omega
  have hbuf : r.new_passwd = (plain_run (make_env cfg password domain year fixed_size flags) r.iteration).new_passwd := by
    have h := hI.agree
    exact (congrArg LoopState.new_passwd h).trans rfl
  refine ⟨out, r.iteration, ho, hi, by rw [hp]; exact hbuf, ?_, ?_⟩
  · intro h; rw [hit]; exact hI.high h
  · intro h
    obtain ⟨k, hk, hall⟩ := hI.low h
    refine ⟨k, by rw [hit]; exact hk, ?_, ?_⟩
    · rcases hI.stop hit h with h1 | h1
      · left; rw [← hbuf]; exact h1
      · right; rw [hit]; exact h1
    · intro j hj
      obtain ⟨h1, h2⟩ := hall j hj
      have hmin : Nat.min (initial_limit (make_env cfg password domain year fixed_size flags) + j * compute_output_length fixed_size year)
          ITERATION_MAX = initial_limit (make_env cfg password domain year fixed_size flags) + j * compute_output_length fixed_size year :=
        Nat.min_eq_left (Nat.le_of_lt h1)
      rw [hmin]
      exact ⟨h1, h2⟩

/-! ### The labels of the client -/

theorem strength_thresholds_eq :
    strength_thresholds = [1 / 4, 3 / 8, 1 / 2, 5 / 8, 3 / 4, 7 / 8, 1] := by
  simp only [strength_thresholds, List.range, List.range.loop, List.map]
  norm_num

/-- The rank of the label of a finite score is the number of thresholds that the
score has reached. -/
theorem cb_generate_label_rank (q : ℚ) :
    (cb_generate_label (.finite q)).rank =
      (strength_thresholds.filter (fun t => decide (t ≤ q))).length := by
  rw [strength_thresholds_eq]
  simp only [cb_generate_label, DoubleValue.lt, decide_eq_true_eq, List.filter]
  split_ifs <;> simp only [StrengthLabel.rank] <;>
    (repeat (first | rw [decide_eq_true (by linarith)] | rw [decide_eq_false (by linarith)])) <;>
    rfl

theorem cb_generate_label_mono (q1 q2 : ℚ) (h : q1 ≤ q2) :
    (cb_generate_label (.finite q1)).rank ≤ (cb_generate_label (.finite q2)).rank := by
  rw [cb_generate_label_rank, cb_generate_label_rank]
  apply List.Sublist.length_le
  apply List.monotone_filter_right
  intro t ht
  simp only [decide_eq_true_eq] at ht ⊢
  exact le_trans ht h

theorem cb_generate_fraction_finite (q : ℚ) :
    cb_generate_fraction (.finite q) = .finite (Max.max 0 (Min.min 1 q)) := by
  simp only [cb_generate_fraction, DoubleValue.lt, decide_eq_true_eq]
  split_ifs with h1 h2
  · rw [min_eq_left (le_of_lt h1), max_eq_right (by norm_num)]
  · rw [min_eq_right (not_lt.1 h1), max_eq_left (le_of_lt h2)]
  · rw [min_eq_right (not_lt.1 h1), max_eq_right (not_lt.1 h2)]

/-- The score of a label lies in the interval of the label. -/
theorem cb_generate_label_cases (q : ℚ) :
    (q < 0.25 ∧ cb_generate_label (.finite q) = .ridiculously_low) ∨
    (0.25 ≤ q ∧ q < 0.375 ∧ cb_generate_label (.finite q) = .very_low) ∨
    (0.375 ≤ q ∧ q < 0.5 ∧ cb_generate_label (.finite q) = .low) ∨
    (0.5 ≤ q ∧ q < 0.625 ∧ cb_generate_label (.finite q) = .fair) ∨
    (0.625 ≤ q ∧ q < 0.75 ∧ cb_generate_label (.finite q) = .good) ∨
    (0.75 ≤ q ∧ q < 0.875 ∧ cb_generate_label (.finite q) = .great) ∨
    (0.875 ≤ q ∧ q < 1 ∧ cb_generate_label (.finite q) = .excellent) ∨
    (1 ≤ q ∧ cb_generate_label (.finite q) = .overkill) := by
  simp only [cb_generate_label, DoubleValue.lt, decide_eq_true_eq]
  split_ifs with h1 h2 h3 h4 h5 h6 h7
  · exact Or.inl ⟨h1, rfl⟩
  · exact Or.inr (Or.inl ⟨not_lt.1 h1, h2, rfl⟩)
  · exact Or.inr (Or.inr (Or.inl ⟨not_lt.1 h2, h3, rfl⟩))
  · exact Or.inr (Or.inr (Or.inr (Or.inl ⟨not_lt.1 h3, h4, rfl⟩)))
  · exact Or.inr (Or.inr (Or.inr (Or.inr (Or.inl ⟨not_lt.1 h4, h5, rfl⟩))))
  · exact Or.inr (Or.inr (Or.inr (Or.inr (Or.inr (Or.inl ⟨not_lt.1 h5, h6, rfl⟩)))))
  · exact Or.inr (Or.inr (Or.inr (Or.inr (Or.inr (Or.inr (Or.inl ⟨not_lt.1 h6, h7, rfl⟩))))))
  · exact Or.inr (Or.inr (Or.inr (Or.inr (Or.inr (Or.inr (Or.inr (⟨not_lt.1 h7, rfl⟩)))))))

set_option maxHeartbeats 1600000 in
/-- The thresholds of the eight labels. -/
theorem cb_generate_label_thresholds (q : ℚ) :
    (cb_generate_label (.finite q) = .ridiculously_low ↔ q < 1 / 4) ∧
    (cb_generate_label (.finite q) = .very_low ↔ 1 / 4 ≤ q ∧ q < 3 / 8) ∧
    (cb_generate_label (.finite q) = .low ↔ 3 / 8 ≤ q ∧ q < 1 / 2) ∧
    (cb_generate_label (.finite q) = .fair ↔ 1 / 2 ≤ q ∧ q < 5 / 8) ∧
    (cb_generate_label (.finite q) = .good ↔ 5 / 8 ≤ q ∧ q < 3 / 4) ∧
    (cb_generate_label (.finite q) = .great ↔ 3 / 4 ≤ q ∧ q < 7 / 8) ∧
    (cb_generate_label (.finite q) = .excellent ↔ 7 / 8 ≤ q ∧ q < 1) ∧
    (cb_generate_label (.finite q) = .overkill ↔ 1 ≤ q) := by
  rcases cb_generate_label_cases q with ⟨ha, hl⟩ | ⟨ha, hb, hl⟩ | ⟨ha, hb, hl⟩ | ⟨ha, hb, hl⟩ | ⟨ha, hb, hl⟩ | ⟨ha, hb, hl⟩ | ⟨ha, hb, hl⟩ | ⟨ha, hl⟩ <;>
    rw [hl] <;>
    refine ⟨?_, ?_, ?_, ?_, ?_, ?_, ?_, ?_⟩ <;>
    simp only [reduceCtorEq, true_iff, false_iff, not_and, not_lt, not_le] <;>
    norm_num at * <;>
    first
    | linarith
    | (constructor <;> linarith)
    | (intro _; linarith)

/-! ### The alphabets -/

set_option maxRecDepth 100000 in
/-- No category alphabet repeats a symbol; the lower and upper case alphabets are
permutations of the 26 letters; every symbol is an ASCII code. -/
theorem category_alphabets_nodup :
    (OUTPUT_LOW.Nodup ∧ OUTPUT_UPP.Nodup ∧ OUTPUT_DIG.Nodup ∧ OUTPUT_SYM.Nodup) ∧
    (OUTPUT_LOW.Perm ((List.range 26).map (fun i => Fin.ofNat (97 + i))) ∧
      OUTPUT_UPP.Perm ((List.range 26).map (fun i => Fin.ofNat (65 + i)))) ∧
    (∀ c : Category, ∀ b ∈ c.alphabet, b.val < 128) := by
  refine ⟨by decide, by decide, ?_⟩
  intro c
  cases c <;> decide

set_option maxRecDepth 100000 in
/-- The output alphabet of any flags word repeats no symbol. -/
theorem spec_alphabet_nodup_bits (low dig sym upp : Bool) :
    ((if low then OUTPUT_LOW else []) ++ (if dig then OUTPUT_DIG else []) ++
      (if sym then OUTPUT_SYM else []) ++ (if upp then OUTPUT_UPP else [])).Nodup := by
  cases low <;> cases dig <;> cases sym <;> cases upp <;> decide

theorem spec_alphabet_nodup (flags : Nat) : (spec_alphabet flags).Nodup :=
  spec_alphabet_nodup_bits _ _ _ _

/-- A symbol belongs to at most one category. -/
theorem category_unique (c1 c2 : Category) (b : Byte) (h1 : b ∈ c1.alphabet)
    (h2 : b ∈ c2.alphabet) : c1 = c2 := by
  cases c2
  · have := (category_symbol_mem true false false false c1 b h1).1 (by simpa using h2)
    cases c1 <;> simp_all
  · have := (category_symbol_mem false false false true c1 b h1).1 (by simpa using h2)
    cases c1 <;> simp_all
  · have := (category_symbol_mem false true false false c1 b h1).1 (by simpa using h2)
    cases c1 <;> simp_all
  · have := (category_symbol_mem false false true false c1 b h1).1 (by simpa using h2)
    cases c1 <;> simp_all

/-- A symbol of the output alphabet is a symbol of a requested category. -/
theorem mem_spec_alphabet (flags : Nat) (b : Byte) (h : b ∈ spec_alphabet flags) :
    ∃ c : Category, requested flags c ∧ b ∈ c.alphabet := by
  simp only [spec_alphabet, List.mem_append] at h
  rcases h with ((h | h) | h) | h
  · by_cases hf : flag_set flags FLAG_LOW_AVAIL = true
    · rw [if_pos hf] at h; exact ⟨Category.Lower, hf, h⟩
    · rw [if_neg hf] at h; exact absurd h (List.not_mem_nil b)
  · by_cases hf : flag_set flags FLAG_DIG_AVAIL = true
    · rw [if_pos hf] at h; exact ⟨Category.Digit, hf, h⟩
    · rw [if_neg hf] at h; exact absurd h (List.not_mem_nil b)
  · by_cases hf : flag_set flags FLAG_SYM_AVAIL = true
    · rw [if_pos hf] at h; exact ⟨Category.Symbol, hf, h⟩
    · rw [if_neg hf] at h; exact absurd h (List.not_mem_nil b)
  · by_cases hf : flag_set flags FLAG_UPP_AVAIL = true
    · rw [if_pos hf] at h; exact ⟨Category.Upper, hf, h⟩
    · rw [if_neg hf] at h; exact absurd h (List.not_mem_nil b)

/-! ### The count table of the strength estimator -/

/-- C26 (alphabet well-formedness).  None of the four category alphabets repeats a
symbol; Lower and Upper are permutations of the 26 letters, Digit has 10 symbols and
Symbol 17; the four are pairwise disjoint.  So for every flags word the output
alphabet repeats no symbol, each of its symbols belongs to exactly one category, and
its length is at most 79, which is at most 256. -/
theorem alphabet_well_formed :
    (OUTPUT_LOW.Nodup ∧ OUTPUT_UPP.Nodup ∧ OUTPUT_DIG.Nodup ∧ OUTPUT_SYM.Nodup) ∧
    (OUTPUT_LOW.Perm ((List.range 26).map (fun i => Fin.ofNat (97 + i))) ∧
      OUTPUT_UPP.Perm ((List.range 26).map (fun i => Fin.ofNat (65 + i)))) ∧
    (OUTPUT_LOW.length = 26 ∧ OUTPUT_UPP.length = 26 ∧ OUTPUT_DIG.length = 10 ∧
      OUTPUT_SYM.length = 17) ∧
    (∀ (c1 c2 : Category) (b : Byte), b ∈ c1.alphabet → b ∈ c2.alphabet → c1 = c2) ∧
    ∀ flags : Nat,
      (cstr (build_output_domain flags)).Nodup ∧
      (∀ b ∈ cstr (build_output_domain flags),
        ∃ c : Category, b ∈ c.alphabet ∧ ∀ c2 : Category, b ∈ c2.alphabet → c2 = c) ∧
      strlen (build_output_domain flags) ≤ 79 ∧ 79 ≤ OUTPUT_DOMAIN_MAXLENGTH := by
  refine ⟨category_alphabets_nodup.1, category_alphabets_nodup.2.1, ⟨rfl, rfl, rfl, rfl⟩,
    category_unique, fun flags => ⟨?_, ?_, strlen_build_output_domain_le flags, by decide⟩⟩
  · rw [cstr_build_output_domain]; exact spec_alphabet_nodup flags
  · intro b hb
    rw [cstr_build_output_domain] at hb
    obtain ⟨c, _, hc⟩ := mem_spec_alphabet flags b hb
    exact ⟨c, hc, fun c2 h2 => category_unique c2 c b h2 hc⟩

/-- C28 (the divisor matches the default length).  For a year `Y = atoi year` with
`1940 ≤ Y ≤ 3224` the divisor `max(Y / 5 - 388, 12)` of `get_password_strength` is the
length that `generate_password` chooses for that year when no size is fixed: for the
password of such a call the two operands of `password_length / divisor` are the same
number, and the quotient is 1.  From 3225 on the length is 256 and the divisor,
`Y / 5 - 388`, is larger. -/
theorem strength_divisor_matches_length (cfg : Config) (password domain year : List Byte)
    (flags : Nat) (hc : has_category flags) (hfit : InRange password domain year 0 flags) :
    (1940 ≤ atoi year → atoi year ≤ 3224 →
      strength_divisor (atoi year).toNat = compute_output_length 0 year ∧
      ∃ out, generate_password cfg password domain year 0 flags = some out ∧
        strlen out.new_passwd = strength_divisor (atoi year).toNat ∧
        Float.ofNat (strlen out.new_passwd) = Float.ofNat (strength_divisor (atoi year).toNat) ∧
        ((strlen out.new_passwd : ℚ) / (strength_divisor (atoi year).toNat : ℚ) = 1)) ∧
    (3225 ≤ atoi year →
      compute_output_length 0 year = 256 ∧
      strength_divisor (atoi year).toNat = (atoi year).toNat / 5 - 388 ∧
      256 < strength_divisor (atoi year).toNat) := by
  obtain ⟨_, hhi⟩ := atoi_range year
  norm_num at hhi
  have hlen := compute_output_length_year year
  constructor
  · intro h1 h2
    have hdiv := strength_divisor_of_ge (atoi year).toNat (by simp only [UINT_MOD]; omega)
      (by omega)
    have heq : strength_divisor (atoi year).toNat = compute_output_length 0 year := by
      rw [hdiv, hlen]
      simp only [Nat.max_def, Nat.min_def]
      split <;> split <;> (try split) <;> (try split) <;> omega
    refine ⟨heq, ?_⟩
    obtain ⟨out, ho, hstr, _⟩ := generate_password_strlen cfg password domain year 0 flags hc hfit
    have hs : strlen out.new_passwd = strength_divisor (atoi year).toNat := by rw [hstr, heq]
    have hpos : 0 < strength_divisor (atoi year).toNat := by
      rw [heq]; exact compute_output_length_pos 0 year
    refine ⟨out, ho, hs, by rw [hs], ?_⟩
    rw [hs]
    exact div_self (by exact_mod_cast (Nat.pos_iff_ne_zero.1 hpos))
  · intro h
    have hdiv := strength_divisor_of_ge (atoi year).toNat (by simp only [UINT_MOD]; omega)
      (by omega)
    refine ⟨?_, ?_, ?_⟩
    · rw [hlen]
      simp only [Nat.max_def, Nat.min_def]
      split <;> (try split) <;> (try split) <;> omega
    · rw [hdiv]; simp only [Nat.max_def]; split <;> omega
    · rw [hdiv]; simp only [Nat.max_def]; split <;> omega

/-- C29 (strength labels of the client).  `cb_generate` gives a score `s` the label
"ridiculously low" for `s < 0.25`, "very low" below 0.375, "low" below 0.5, "fair"
below 0.625, "good" below 0.75, "great" below 0.875, "excellent" below 1 and
"overkill" otherwise; the seven thresholds are `0.25 + k * 0.125`; the label does not
go down when the score goes up; the fraction shown is the score clamped to `[0, 1]`.
A score that is not a number gets "overkill" and is passed on as it is. -/
theorem cb_generate_label_spec :
    (∀ q : ℚ,
      (cb_generate_label (.finite q) = .ridiculously_low ↔ q < 1 / 4) ∧
      (cb_generate_label (.finite q) = .very_low ↔ 1 / 4 ≤ q ∧ q < 3 / 8) ∧
      (cb_generate_label (.finite q) = .low ↔ 3 / 8 ≤ q ∧ q < 1 / 2) ∧
      (cb_generate_label (.finite q) = .fair ↔ 1 / 2 ≤ q ∧ q < 5 / 8) ∧
      (cb_generate_label (.finite q) = .good ↔ 5 / 8 ≤ q ∧ q < 3 / 4) ∧
      (cb_generate_label (.finite q) = .great ↔ 3 / 4 ≤ q ∧ q < 7 / 8) ∧
      (cb_generate_label (.finite q) = .excellent ↔ 7 / 8 ≤ q ∧ q < 1) ∧
      (cb_generate_label (.finite q) = .overkill ↔ 1 ≤ q)) ∧
    (cb_generate_label .neg_inf = .ridiculously_low ∧
      cb_generate_label .pos_inf = .overkill ∧ cb_generate_label .nan = .overkill) ∧
    strength_thresholds = [1 / 4, 3 / 8, 1 / 2, 5 / 8, 3 / 4, 7 / 8, 1] ∧
    (∀ q1 q2 : ℚ, q1 ≤ q2 →
      (cb_generate_label (.finite q1)).rank ≤ (cb_generate_label (.finite q2)).rank) ∧
    (∀ q : ℚ, cb_generate_fraction (.finite q) = .finite (Max.max 0 (Min.min 1 q))) ∧
    (cb_generate_fraction .pos_inf = .finite 1 ∧ cb_generate_fraction .neg_inf = .finite 0 ∧
      cb_generate_fraction .nan = .nan) ∧
    (StrengthLabel.ridiculously_low.text = "Strength: ridiculously low" ∧
      StrengthLabel.overkill.text = "Strength: overkill") :=
  ⟨cb_generate_label_thresholds, ⟨rfl, rfl, rfl⟩, strength_thresholds_eq,
    cb_generate_label_mono, cb_generate_fraction_finite, ⟨rfl, rfl, rfl⟩, ⟨rfl, rfl⟩⟩

/-! ### The claims at concrete inputs, the loop and the strength -/

theorem sample_in_range : InRange sample_secret sample_domain sample_year 0 15 := by decide

theorem sample_run_starts :
    (initial_state sample_env).iteration < (initial_state sample_env).limit :=
  Nat.lt_of_le_of_lt (Nat.zero_le _)
    (output_length_lt_initial_limit sample_config sample_secret sample_domain sample_year
      0 15 has_category_all sample_in_range)

theorem initial_limit_spec_witness :
    (has_category 15 ∧ InRange sample_secret sample_domain sample_year 0 15) ∧
    initial_limit sample_env =
      (spec_alphabet 15).length *
        (strlen sample_secret + strlen sample_domain + strlen sample_year
          + compute_output_length 0 sample_year + 15) :=
  ⟨⟨has_category_all, sample_in_range⟩,
   (initial_limit_spec sample_config sample_secret sample_domain sample_year 0 15
     has_category_all sample_in_range).1⟩

theorem mixing_state_closed_form_witness :
    Reachable sample_env sample_first_state ∧
    cursor sample_first_state.output_seek (compute_output_length 0 sample_year) =
      sample_first_state.iteration % compute_output_length 0 sample_year :=
  ⟨Reachable.step _ Reachable.init sample_run_starts,
   (mixing_state_closed_form sample_config sample_secret sample_domain sample_year 0 15 _
     (Reachable.step _ Reachable.init sample_run_starts)).2.2.2.1⟩

theorem retry_is_top_up_witness :
    (has_category 15 ∧ InRange sample_secret sample_domain sample_year 0 15) ∧
    ∃ out N, generate_password sample_config sample_secret sample_domain sample_year 0 15
        = some out ∧
      out.iteration = N ∧ out.new_passwd = (plain_run sample_env N).new_passwd :=
  ⟨⟨has_category_all, sample_in_range⟩,
   (retry_is_top_up sample_config sample_secret sample_domain sample_year 0 15
     has_category_all sample_in_range).imp
     (fun _ h => h.imp (fun _ h2 => ⟨h2.1, h2.2.1, h2.2.2.1⟩))⟩

theorem output_follows_accumulators_witness :
    Reachable sample_env sample_first_state ∧
    ∀ p, (∃ i, i < sample_first_state.iteration ∧
        i % compute_output_length 0 sample_year = p) →
      sample_first_state.new_passwd.getD p 0 =
        (build_output_domain 15).getD
          (sample_first_state.password_hash.getD p 0
            % strlen (build_output_domain 15)) 0 :=
  ⟨Reachable.step _ Reachable.init sample_run_starts,
   (output_follows_accumulators sample_config sample_secret sample_domain sample_year 0 15 _
     (Reachable.step _ Reachable.init sample_run_starts)).1⟩

theorem generate_password_memory_safe_witness :
    (Reachable sample_env (initial_state sample_env) ∧
      (initial_state sample_env).iteration < (initial_state sample_env).limit) ∧
    strlen (build_output_domain 15) ≠ 0 ∧
    cursor (initial_state sample_env).output_seek (compute_output_length 0 sample_year)
      < compute_output_length 0 sample_year :=
  ⟨⟨Reachable.init, sample_run_starts⟩,
   (generate_password_memory_safe sample_config sample_secret sample_domain sample_year 0 15
     _ Reachable.init sample_run_starts).2.2.2.2.1.1,
   (generate_password_memory_safe sample_config sample_secret sample_domain sample_year 0 15
     _ Reachable.init sample_run_starts).2.2.2.1.1⟩

theorem strength_divisor_matches_length_witness :
    (has_category 15 ∧ InRange sample_secret sample_domain sample_year 0 15 ∧
      1940 ≤ atoi sample_year ∧ atoi sample_year ≤ 3224) ∧
    strength_divisor (atoi sample_year).toNat = compute_output_length 0 sample_year :=
  ⟨⟨has_category_all, sample_in_range, by decide, by decide⟩,
   ((strength_divisor_matches_length sample_config sample_secret sample_domain sample_year 15
     has_category_all sample_in_range).1 (by decide) (by decide)).1⟩

theorem cb_generate_label_spec_witness :
    ((3 / 10 : ℚ) ≤ 9 / 10) ∧
    (cb_generate_label (.finite (3 / 10))).rank ≤ (cb_generate_label (.finite (9 / 10))).rank :=
  ⟨by norm_num, cb_generate_label_spec.2.2.2.1 (3 / 10) (9 / 10) (by norm_num)⟩

/-- Where dead stores are dropped, a call with a category returns with the symbol
domain still in `output_domain`, its first byte not zero, and with `password_hash`
still holding the final accumulators, those that select the symbols of the returned
password. -/
theorem generate_password_not_wiped_if_stores_dropped (cfg : Config)
    (password domain year : List Byte) (fixed_size flags : Nat) (hc : has_category flags)
    (hdrop : cfg.dead_stores_kept = false) :
    ∃ out accumulators,
      generate_password cfg password domain year fixed_size flags = some out ∧
      out.output_domain = some (build_output_domain flags) ∧
      (build_output_domain flags).getD 0 0 ≠ 0 ∧
      out.password_hash = some accumulators ∧
      ∀ p, (∃ i, i < out.iteration ∧ i % compute_output_length fixed_size year = p) →
        out.new_passwd.getD p 0 =
          (build_output_domain flags).getD
            (accumulators.getD p 0 % strlen (build_output_domain flags)) 0 := by
  have hf := flags_ne_zero_of_has_category flags hc
  have hpos := compute_output_length_pos fixed_size year
  obtain ⟨r, hr, _, _⟩ := run_returns (make_env cfg password domain year fixed_size flags)
  obtain ⟨out, ho, hd, hh⟩ := generate_password_of_run_buffers cfg password domain year
    fixed_size flags hf r hr
  obtain ⟨out2, ho2, hp, hi⟩ := generate_password_of_run cfg password domain year fixed_size
    flags hf r hr
  have hsame : out2 = out := Option.some.inj (ho2.symm.trans ho)
  subst hsame
  obtain ⟨hreach, _⟩ := reachable_of_mix_loop _ _ r hr
  have hI := stateInv_of_reachable _ hpos r hreach
  refine ⟨out2, r.password_hash, ho, ?_, ?_, ?_, ?_⟩
  · rw [hd]; simp only [final_output_domain, hdrop]; rfl
  · exact ne_zero_of_mem_cstr _ _
      (getD_mem_cstr _ 0 (strlen_build_output_domain_pos flags hc))
  · rw [hh]; simp only [final_password_hash, hdrop]; rfl
  · rintro p ⟨i, hi2, hip⟩
    rw [hi] at hi2
    have hlt : p < compute_output_length fixed_size year := by
      rw [← hip]; exact Nat.mod_lt _ hpos
    have hle : p ≤ i := by rw [← hip]; exact Nat.mod_le _ _
    rw [hp]
    exact hI.follows p hlt (by omega)

end Dprpwg
